import Mathlib

/-!
# simplersa: a shallow embedding of `simplersa.go`

Go strings and byte slices are both modelled as lists of bytes (a Go string is
an immutable byte sequence, so `[]byte(s)` and `string(b)` are the identity).
The calls into `crypto/rsa`, `crypto/x509` and `encoding/pem` are fields of an
`Externals` record; `encoding/base64`, `strings.Split`, the match against the
pattern "-" and the rune iteration of `for ... range` are modelled concretely.
-/

set_option maxRecDepth 100000

namespace SimpleRSA

/-- A byte. -/
abbrev Byte := Fin 256

/-- A Go string (equally a Go byte slice): a sequence of bytes. -/
abbrev GoString := List Byte

/-- The bytes of a string literal of the source (its UTF-8 encoding). -/
def lit (s : String) : GoString := s.toUTF8.data.toList.map (fun b => b.val)

/-- The line-feed byte. -/
def nl : Byte := 10

/-- The carriage-return byte. -/
def cr : Byte := 13

/-- The byte of the character "-". -/
def dash : Byte := 45

/-- The base64 padding byte "=". -/
def padChar : Byte := 61

/-! ## encoding/base64, StdEncoding -/

/-- The standard base64 alphabet. -/
def encodeStd : GoString :=
  lit "ABCDEFGHIJKLMNOPQRSTUVWXYZabcdefghijklmnopqrstuvwxyz0123456789+/"

/-- The alphabet character of a 6-bit value. -/
def encChar (v : Nat) : Byte := encodeStd.getD v 0

/-- The 6-bit value of an alphabet character, `none` outside the alphabet
(the decode map's 0xff). -/
def decChar (c : Byte) : Option Nat :=
  let i := encodeStd.indexOf c
  if i < 64 then some i else none

/-- `base64.StdEncoding.EncodeToString`: three bytes become four characters,
a final group of one or two bytes is padded with "=". -/
def EncodeToString : List Byte → GoString
  | [] => []
  | [x] => [encChar (x.val / 4), encChar (x.val % 4 * 16), padChar, padChar]
  | [x, y] =>
    [encChar (x.val / 4), encChar (x.val % 4 * 16 + y.val / 16),
     encChar (y.val % 16 * 4), padChar]
  | x :: y :: z :: rest =>
    encChar (x.val / 4) :: encChar (x.val % 4 * 16 + y.val / 16) ::
      encChar (y.val % 16 * 4 + z.val / 64) :: encChar (z.val % 64) ::
      EncodeToString rest

/-- The quanta of `base64.StdEncoding.DecodeString`, after the line breaks have
been skipped: four characters give three bytes; padding is accepted only in the
last quantum ("xx==" or "xxx="), anything after it is trailing garbage; an
incomplete quantum is corrupt input. The encoding is not strict: the unused
low bits of a padded quantum are not checked. -/
def decodeQuanta : GoString → Option (List Byte)
  | [] => some []
  | [_] => none
  | [_, _] => none
  | [_, _, _] => none
  | a :: b :: c :: d :: rest =>
    match decChar a, decChar b with
    | some va, some vb =>
      if c = padChar then
        if d = padChar ∧ rest = [] then some [Fin.ofNat (va * 4 + vb / 16)] else none
      else
        match decChar c with
        | none => none
        | some vc =>
          if d = padChar then
            if rest = [] then
              some [Fin.ofNat (va * 4 + vb / 16), Fin.ofNat (vb % 16 * 16 + vc / 4)]
            else none
          else
            match decChar d with
            | none => none
            | some vd =>
              match decodeQuanta rest with
              | none => none
              | some bs =>
                some (Fin.ofNat (va * 4 + vb / 16) :: Fin.ofNat (vb % 16 * 16 + vc / 4) ::
                  Fin.ofNat (vc % 4 * 64 + vd) :: bs)
    | _, _ => none

/-- `base64.StdEncoding.DecodeString`: carriage returns and line feeds are
ignored wherever they stand; `none` is a returned `CorruptInputError`. -/
def DecodeString (s : GoString) : Option (List Byte) :=
  decodeQuanta (s.filter (fun c => c ≠ nl ∧ c ≠ cr))

/-! ## Strings: rune iteration, `strings.Split`, the pattern "-" -/

/-- The rune `utf8.RuneError` (U+FFFD). -/
def RuneError : Nat := 0xFFFD

/-- Whether a byte is a UTF-8 continuation byte (0x80 to 0xBF). -/
def isCont (b : Byte) : Bool := 0x80 ≤ b.val && b.val ≤ 0xBF

/-- `utf8.DecodeRuneInString`: the first rune of a string and its width in
bytes; an invalid or truncated encoding gives `(RuneError, 1)`. -/
def DecodeRuneInString : GoString → Nat × Nat
  | [] => (RuneError, 0)
  | b0 :: rest =>
    if b0.val < 0x80 then (b0.val, 1)
    else if 0xC2 ≤ b0.val ∧ b0.val ≤ 0xDF then
      match rest with
      | b1 :: _ =>
        if isCont b1 then (b0.val % 32 * 64 + b1.val % 64, 2) else (RuneError, 1)
      | _ => (RuneError, 1)
    else if 0xE0 ≤ b0.val ∧ b0.val ≤ 0xEF then
      match rest with
      | b1 :: b2 :: _ =>
        if (if b0.val = 0xE0 then 0xA0 else 0x80) ≤ b1.val ∧
            b1.val ≤ (if b0.val = 0xED then 0x9F else 0xBF) ∧ isCont b2 then
          (b0.val % 16 * 4096 + b1.val % 64 * 64 + b2.val % 64, 3)
        else (RuneError, 1)
      | _ => (RuneError, 1)
    else if 0xF0 ≤ b0.val ∧ b0.val ≤ 0xF4 then
      match rest with
      | b1 :: b2 :: b3 :: _ =>
        if (if b0.val = 0xF0 then 0x90 else 0x80) ≤ b1.val ∧
            b1.val ≤ (if b0.val = 0xF4 then 0x8F else 0xBF) ∧ isCont b2 ∧ isCont b3 then
          (b0.val % 8 * 262144 + b1.val % 64 * 4096 + b2.val % 64 * 64 + b3.val % 64, 4)
        else (RuneError, 1)
      | _ => (RuneError, 1)
    else (RuneError, 1)

/-- The conversion `string(r)` of a rune: its UTF-8 encoding, that of U+FFFD
for a surrogate or a value above U+10FFFF. -/
def runeToString (r : Nat) : GoString :=
  if r < 0x80 then [Fin.ofNat r]
  else if r < 0x800 then [Fin.ofNat (0xC0 + r / 64), Fin.ofNat (0x80 + r % 64)]
  else if (0xD800 ≤ r ∧ r ≤ 0xDFFF) ∨ 0x10FFFF < r then [0xEF, 0xBF, 0xBD]
  else if r < 0x10000 then
    [Fin.ofNat (0xE0 + r / 4096), Fin.ofNat (0x80 + r / 64 % 64), Fin.ofNat (0x80 + r % 64)]
  else
    [Fin.ofNat (0xF0 + r / 262144), Fin.ofNat (0x80 + r / 4096 % 64),
     Fin.ofNat (0x80 + r / 64 % 64), Fin.ofNat (0x80 + r % 64)]

/-- The iterations of `for i, r := range text` from byte offset `i`, where the
next `skip` bytes belong to the rune already yielded: the pairs of the byte
offset at which a rune starts and the rune. -/
def rangeFrom : Nat → Nat → GoString → List (Nat × Nat)
  | _, _, [] => []
  | i, skip + 1, _ :: bs => rangeFrom (i + 1) skip bs
  | i, 0, b :: bs =>
    (i, (DecodeRuneInString (b :: bs)).1) ::
      rangeFrom (i + 1) ((DecodeRuneInString (b :: bs)).2 - 1) bs

/-- The iterations of `for i, r := range text`. -/
def rangeString (text : GoString) : List (Nat × Nat) := rangeFrom 0 0 text

/-- `strings.Split(s, "\n")`: the pieces of `s` between line feeds; a string
without a line feed (the empty one too) gives one piece. -/
def splitLines : GoString → List GoString
  | [] => [[]]
  | c :: cs =>
    if c = nl then [] :: splitLines cs
    else
      match splitLines cs with
      | [] => [[c]]
      | l :: ls => (c :: l) :: ls

/-- `regexp.MatchString("-", line)`: the pattern compiles, so the error is
always nil, and it matches exactly the lines in which the byte "-" occurs. -/
def matchDash (line : GoString) : Bool := line.contains dash

/-! ## Panics -/

/-- The run-time panics the code can raise. -/
inductive Panic where
  | nilPointerDereference
  | interfaceConversion
  | integerDivideByZero
  deriving DecidableEq, Repr

deriving instance DecidableEq for Except

/-! ## lineWrapString -/

/-- The loop of `lineWrapString`, over the iterations of `range text`, with
`rtn` threaded through. `i % lineLen` is Go's truncated remainder; it panics
when `lineLen` is zero (it is only evaluated when `i > 0`). -/
def lineWrapLoop (lineLen : Int) : List (Nat × Nat) → GoString → Except Panic GoString
  | [], rtn => .ok rtn
  | (i, r) :: rest, rtn =>
    if i > 0 then
      if lineLen = 0 then .error .integerDivideByZero
      else if Int.tmod (i : Int) lineLen = 0 then
        lineWrapLoop lineLen rest (rtn ++ lit "\n" ++ runeToString r)
      else lineWrapLoop lineLen rest (rtn ++ runeToString r)
    else lineWrapLoop lineLen rest (rtn ++ runeToString r)

/-- The function `lineWrapString(text, lineLen, withHeaders)`. -/
def lineWrapString (text : GoString) (lineLen : Int) (withHeaders : Bool) :
    Except Panic GoString :=
  let rtn : GoString := if withHeaders then lit "-----BEGIN ENCODED MESSAGE-----\n" else []
  match lineWrapLoop lineLen (rangeString text) rtn with
  | .error p => .error p
  | .ok rtn => .ok (if withHeaders then rtn ++ lit "\n-----END ENCODED MESSAGE-----\n" else rtn)

/-! ## The external libraries -/

/-- A `pem.Block`. -/
structure Block where
  /-- The field `Type` of the block. -/
  Typ : GoString
  /-- The field `Headers` of the block. -/
  Headers : List (GoString × GoString)
  /-- The field `Bytes` of the block. -/
  Bytes : List Byte
  deriving DecidableEq

/-- The value that `x509.ParsePKIXPublicKey` returns on success: an
`*rsa.PublicKey` or a key of another algorithm. -/
inductive AnyPublicKey (Pub : Type) where
  | rsa (k : Pub)
  | other
  deriving DecidableEq

/-- The functions of `crypto/rsa`, `crypto/x509` and `encoding/pem` the code
calls, over the types of RSA private keys, RSA public keys and states of
`rand.Reader`. A function that returns `(value, error)` gives `none` for a
non-nil error (its value is then nil). -/
structure Externals (Priv Pub Rnd : Type) where
  /-- `rsa.GenerateKey(rand.Reader, bits)`. -/
  GenerateKey : Rnd → Int → Option Priv
  /-- The field `PublicKey` of an `rsa.PrivateKey`. -/
  PublicKey : Priv → Pub
  /-- `PublicKey.Size()`: the modulus length in bytes. -/
  Size : Pub → Nat
  /-- `x509.MarshalPKCS1PrivateKey`. -/
  MarshalPKCS1PrivateKey : Priv → List Byte
  /-- `x509.MarshalPKIXPublicKey`. -/
  MarshalPKIXPublicKey : Pub → Option (List Byte)
  /-- `x509.ParsePKIXPublicKey`. -/
  ParsePKIXPublicKey : List Byte → Option (AnyPublicKey Pub)
  /-- `x509.ParsePKCS1PrivateKey`. -/
  ParsePKCS1PrivateKey : List Byte → Option Priv
  /-- `pem.EncodeToMemory`. -/
  EncodeToMemory : Block → List Byte
  /-- `pem.Decode`, its first result: `none` is the nil block. -/
  Decode : List Byte → Option Block
  /-- `rsa.EncryptPKCS1v15(rand.Reader, pub, msg)`. -/
  EncryptPKCS1v15 : Rnd → Pub → List Byte → Option (List Byte)
  /-- `rsa.DecryptPKCS1v15(rand.Reader, priv, ciphertext)`. -/
  DecryptPKCS1v15 : Rnd → Priv → List Byte → Option (List Byte)

/-- A call into an external library, as recorded in the call log. -/
inductive Call where
  | GenerateKey
  | MarshalPKCS1PrivateKey
  | MarshalPKIXPublicKey
  | ParsePKIXPublicKey
  | ParsePKCS1PrivateKey
  | EncodeToMemory
  | Decode
  | EncryptPKCS1v15
  | DecryptPKCS1v15
  | EncodeToString
  | DecodeString
  deriving DecidableEq, Repr

/-- A Go computation: it may panic, and it appends to the log of the calls
made into the external libraries. -/
abbrev Go (α : Type) := StateT (List Call) (Except Panic) α

/-- Record a call in the log. -/
def call (c : Call) : Go Unit := modify (fun log => log ++ [c])

/-- Raise a panic. -/
def panicWith {α : Type} (p : Panic) : Go α := fun _ => .error p

/-- Dereference a pointer: a nil pointer panics. -/
def deref {α : Type} : Option α → Go α
  | some a => pure a
  | none => panicWith .nilPointerDereference

/-- Run a computation from the empty call log: a panic, or the returned value
with the log of the calls made. -/
def run {α : Type} (x : Go α) : Except Panic (α × List Call) := StateT.run x []

/-! ## The program -/

/-- The error values of the package. -/
inductive Error where
  | ErrBlankValues
  | ErrEncryptMessageConvertingKey
  | ErrEncryptMessageX509Parsing
  | ErrEncryptMessagePCS1Encrypting
  | ErrDecryptMessageRegExMatchFailed
  | ErrDecryptMessageDecodeStringFailed
  | ErrDecryptMessagePemDecoding
  | ErrDecryptMessageX509Decoding
  | ErrDecryptionFailed
  | ErrInvalidKeyLen
  deriving DecidableEq, Repr

/-- The variable `ValidKeyLengths`. -/
def ValidKeyLengths : List Int := [512, 1024, 2048, 3072, 4096, 7680, 15360]

/-- The type `RsaKeyPairType`. -/
structure RsaKeyPairType where
  /-- The field `PublicKey`. -/
  PublicKey : GoString
  /-- The field `PrivateKey`. -/
  PrivateKey : GoString
  deriving DecidableEq

/-- The loop of `badKeyLength` over the valid lengths, with `rtn` threaded
through: a match sets it to false and breaks. -/
def badKeyLengthLoop (keyLen : Int) : List Int → Bool → Bool
  | [], rtn => rtn
  | v :: vs, rtn => if keyLen = v then false else badKeyLengthLoop keyLen vs rtn

/-- The function `badKeyLength(keyLen)`. -/
def badKeyLength (keyLen : Int) : Bool := badKeyLengthLoop keyLen ValidKeyLengths true

section Program

variable {Priv Pub Rnd : Type} (E : Externals Priv Pub Rnd)

/-- The function `NewRSAKeyPair(rsaKeyLength)`, run with `rand.Reader` in state
`rand`. The error of `rsa.GenerateKey` is discarded, so a failed generation
leaves `privateKey` nil, and marshalling it dereferences the nil pointer; the
error of `x509.MarshalPKIXPublicKey` is discarded too, leaving nil bytes. -/
def NewRSAKeyPair (rand : Rnd) (rsaKeyLength : Int) : Go (RsaKeyPairType × Option Error) := do
  let rsaKeyPair : RsaKeyPairType := ⟨[], []⟩
  if badKeyLength rsaKeyLength then
    return (rsaKeyPair, some .ErrInvalidKeyLen)
  else
    call .GenerateKey
    let privateKey := E.GenerateKey rand rsaKeyLength
    call .MarshalPKCS1PrivateKey
    let key ← deref privateKey
    call .EncodeToMemory
    let pvt := E.EncodeToMemory ⟨lit "RSA Private Key", [], E.MarshalPKCS1PrivateKey key⟩
    call .MarshalPKIXPublicKey
    let pk := (E.MarshalPKIXPublicKey (E.PublicKey key)).getD []
    call .EncodeToMemory
    let pub := E.EncodeToMemory ⟨lit "RSA Public Key", [], pk⟩
    return (⟨pub, pvt⟩, none)

/-- The function `EncryptMessage(message, publicKey)`, run with `rand.Reader`
in state `rand`. `block.Bytes` dereferences the block that `pem.Decode`
returned, the type assertion to `*rsa.PublicKey` has no second result, and the
error of `rsa.EncryptPKCS1v15` is discarded. -/
def EncryptMessage (rand : Rnd) (message publicKey : GoString) : Go (GoString × Option Error) := do
  if message = [] ∨ publicKey = [] then
    return ([], some .ErrBlankValues)
  else
    let plainText := message
    call .Decode
    let block ← deref (E.Decode publicKey)
    call .ParsePKIXPublicKey
    match E.ParsePKIXPublicKey block.Bytes with
    | none => return ([], some .ErrEncryptMessageX509Parsing)
    | some .other => panicWith .interfaceConversion
    | some (.rsa pubKey) =>
      call .EncryptPKCS1v15
      let cipherText := (E.EncryptPKCS1v15 rand pubKey plainText).getD []
      call .EncodeToString
      let ctxt := EncodeToString cipherText
      let wrapped ← liftM (lineWrapString ctxt 40 true)
      return (wrapped, none)

/-- The loop of `DecryptMessage` over the lines of the message, with `b64ctx`
threaded through: a line the pattern "-" does not match is appended. -/
def commentLoop : List GoString → GoString → GoString
  | [], b64ctx => b64ctx
  | line :: rest, b64ctx =>
    if matchDash line = false then commentLoop rest (b64ctx ++ line)
    else commentLoop rest b64ctx

/-- The function `DecryptMessage(message, privateKey)`, run with `rand.Reader`
in state `rand`. -/
def DecryptMessage (rand : Rnd) (message privateKey : GoString) : Go (GoString × Option Error) := do
  if message = [] ∨ privateKey = [] then
    return ([], some .ErrBlankValues)
  else
    let b64Lines := splitLines message
    let b64ctx := commentLoop b64Lines []
    call .DecodeString
    match DecodeString b64ctx with
    | none => return ([], some .ErrDecryptMessageDecodeStringFailed)
    | some cipherText =>
      call .Decode
      match E.Decode privateKey with
      | none => return ([], some .ErrDecryptMessagePemDecoding)
      | some block =>
        call .ParsePKCS1PrivateKey
        match E.ParsePKCS1PrivateKey block.Bytes with
        | none => return ([], some .ErrDecryptMessageX509Decoding)
        | some pvtKey =>
          call .DecryptPKCS1v15
          match E.DecryptPKCS1v15 rand pvtKey cipherText with
          | none => return ([], some .ErrDecryptionFailed)
          | some plainText => return (plainText, none)

end Program

/-! ## Specification-side definitions -/

/-- The text of a base64 encoding: alphabet characters and the padding "=". -/
def isBase64Text (t : GoString) : Prop := ∀ c ∈ t, c ∈ encodeStd ∨ c = padChar

instance : DecidablePred isBase64Text := fun t => by
  unfold isBase64Text
  infer_instance

/-- What the loop of `lineWrapString` appends for a text of one-byte runes that
starts at byte offset `i`: a line feed before every byte whose offset is a
positive multiple of 40. -/
def wrapBody : Nat → GoString → GoString
  | _, [] => []
  | i, c :: t =>
    if 0 < i ∧ i % 40 = 0 then nl :: c :: wrapBody (i + 1) t else c :: wrapBody (i + 1) t

/-- The text that `lineWrapString` returns for the base64 of `b`. -/
def wrapped (b : List Byte) : GoString :=
  lit "-----BEGIN ENCODED MESSAGE-----\n" ++ wrapBody 0 (EncodeToString b) ++
    lit "\n-----END ENCODED MESSAGE-----\n"

/-- The line of the opening delimiter, without its line feed. -/
def beginLine : GoString := lit "-----BEGIN ENCODED MESSAGE-----"

/-- The line of the closing delimiter, without its line feed. -/
def endLine : GoString := lit "-----END ENCODED MESSAGE-----"

/-- The sequence of the test `TestEncryptMessage`: encrypt under the public
key of the pair, then decrypt the returned text (whatever the returned error)
with its private key. -/
def roundTrip {Priv Pub Rnd : Type} (E : Externals Priv Pub Rnd) (r1 r2 : Rnd)
    (plainText : GoString) (keys : RsaKeyPairType) : Go (GoString × Option Error) := do
  let (cipherText, _) ← EncryptMessage E r1 plainText keys.PublicKey
  DecryptMessage E r2 cipherText keys.PrivateKey

/-- The modulus length in bytes of the RSA key that a public-key PEM holds. -/
def modulusBytes {Priv Pub Rnd : Type} (E : Externals Priv Pub Rnd) (publicKey : GoString) :
    Option Nat :=
  match E.Decode publicKey with
  | none => none
  | some block =>
    match E.ParsePKIXPublicKey block.Bytes with
    | some (.rsa k) => some (E.Size k)
    | _ => none

/-- The external libraries are correct: PEM decoding inverts PEM encoding of
the two block types and finds no block in the empty input, X.509 parsing
inverts marshalling, and PKCS1v15 decryption with the private key inverts
encryption under its public key of every message that fits the modulus. -/
structure Correct {Priv Pub Rnd : Type} (E : Externals Priv Pub Rnd) : Prop where
  /-- `pem.Decode` finds no block in the empty input. -/
  decode_nil : E.Decode [] = none
  /-- `pem.Decode` inverts `pem.EncodeToMemory` on private-key blocks. -/
  pem_private : ∀ der : List Byte,
    E.Decode (E.EncodeToMemory ⟨lit "RSA Private Key", [], der⟩) =
      some ⟨lit "RSA Private Key", [], der⟩
  /-- `pem.Decode` inverts `pem.EncodeToMemory` on public-key blocks. -/
  pem_public : ∀ der : List Byte,
    E.Decode (E.EncodeToMemory ⟨lit "RSA Public Key", [], der⟩) =
      some ⟨lit "RSA Public Key", [], der⟩
  /-- `x509.ParsePKCS1PrivateKey` inverts `x509.MarshalPKCS1PrivateKey`. -/
  pkcs1 : ∀ k : Priv, E.ParsePKCS1PrivateKey (E.MarshalPKCS1PrivateKey k) = some k
  /-- `x509.ParsePKIXPublicKey` inverts `x509.MarshalPKIXPublicKey`. -/
  pkix : ∀ k : Pub, ∃ der : List Byte,
    E.MarshalPKIXPublicKey k = some der ∧ E.ParsePKIXPublicKey der = some (.rsa k)
  /-- `rsa.DecryptPKCS1v15` inverts `rsa.EncryptPKCS1v15`. -/
  rsa : ∀ (r1 r2 : Rnd) (k : Priv) (m : List Byte), m.length + 11 ≤ E.Size (E.PublicKey k) →
    ∃ c : List Byte, E.EncryptPKCS1v15 r1 (E.PublicKey k) m = some c ∧
      E.DecryptPKCS1v15 r2 k c = some m

/-! ## A small instance of the external libraries

Keys are single bytes, the DER of a key is a tag byte followed by the key, a
PEM block is its type between delimiters around the base64 of its bytes, and a
ciphertext is the key followed by the reversed message. It serves to evaluate
the program on concrete inputs. -/

/-- The PEM text of a block. -/
def toyEncodeToMemory (b : Block) : GoString :=
  lit "-----BEGIN " ++ (b.Typ ++ (lit "-----\n" ++ (EncodeToString b.Bytes ++
    (lit "\n" ++ (lit "-----END " ++ (b.Typ ++ lit "-----\n"))))))

/-- The block of a PEM text: the type up to the first "-" after the opening
words, the base64 body up to the next "-", then the closing delimiter. -/
def toyDecode (s : GoString) : Option Block :=
  if (lit "-----BEGIN ").isPrefixOf s then
    let rest := s.drop (lit "-----BEGIN ").length
    let typ := rest.takeWhile (fun c => c ≠ dash)
    let rest2 := rest.dropWhile (fun c => c ≠ dash)
    if (lit "-----\n").isPrefixOf rest2 then
      let rest3 := rest2.drop (lit "-----\n").length
      let body := rest3.takeWhile (fun c => c ≠ dash)
      let rest4 := rest3.dropWhile (fun c => c ≠ dash)
      if rest4 = lit "-----END " ++ (typ ++ lit "-----\n") then
        match DecodeString body with
        | some bytes => some ⟨typ, [], bytes⟩
        | none => none
      else none
    else none
  else none

/-- The small instance: random state 0 is an entropy source that fails. -/
def toy : Externals Byte Byte Nat where
  GenerateKey := fun r _ => if r = 0 then none else some (Fin.ofNat r)
  PublicKey := fun k => k
  Size := fun _ => 64
  MarshalPKCS1PrivateKey := fun k => [0x30, k]
  MarshalPKIXPublicKey := fun k => some [0x31, k]
  ParsePKIXPublicKey := fun der =>
    match der with
    | [t, k] => if t = 0x31 then some (.rsa k) else if t = 0x32 then some .other else none
    | _ => none
  ParsePKCS1PrivateKey := fun der =>
    match der with
    | [t, k] => if t = 0x30 then some k else none
    | _ => none
  EncodeToMemory := toyEncodeToMemory
  Decode := toyDecode
  EncryptPKCS1v15 := fun _ k m => if m.length + 11 ≤ 64 then some (k :: m.reverse) else none
  DecryptPKCS1v15 := fun _ k c =>
    match c with
    | [] => none
    | k2 :: body => if k2 = k then some body.reverse else none

/-! ## The functions of `os` and the key store -/

/-- The functions of `os` the code calls, over the type of file-system states.
A non-nil error of `os.ReadFile` is `none`; `os.WriteFile` gives the state it
leaves behind and the text of its error (`none` for nil). -/
structure FileOps (FS : Type) where
  /-- `os.ReadFile(name)`. -/
  ReadFile : FS → GoString → Option (List Byte)
  /-- `os.WriteFile(name, data, perm)`. -/
  WriteFile : FS → GoString → List Byte → Nat → FS × Option GoString

/-- The function `SaveRSAKeyPair(keys, fileName)` from the file-system state
`fs`: the state it leaves behind and the returned error. `keys` is a pointer,
nil when `none`; reading `keys.PrivateKey` dereferences it. -/
def SaveRSAKeyPair {FS : Type} (os : FileOps FS) (fs : FS) (keys : Option RsaKeyPairType)
    (fileName : GoString) : Except Panic (FS × Option GoString) :=
  match keys with
  | none => .error .nilPointerDereference
  | some keys =>
    match os.WriteFile fs (fileName ++ lit ".pvt") keys.PrivateKey 0o700 with
    | (fs1, some err) => .ok (fs1, some err)
    | (fs1, none) =>
      match os.WriteFile fs1 (fileName ++ lit ".pub") keys.PublicKey 0o700 with
      | (fs2, some err) => .ok (fs2, some err)
      | (fs2, none) => .ok (fs2, none)

/-- The function `LoadRsaKeys(fileName)` in the file-system state `fs`: the key
pair behind the returned pointer and the warning. The warning strings are
built from the string literal "fileName", as in the source. -/
def LoadRsaKeys {FS : Type} (os : FileOps FS) (fs : FS) (fileName : GoString) :
    RsaKeyPairType × Int :=
  let kp : RsaKeyPairType := ⟨[], []⟩
  let warning : Int := 0
  let privateKeyNotfound : Int := 1
  let publicKeyNotFound : Int := 2
  let (kp, warning) :=
    match os.ReadFile fs (fileName ++ lit ".pub") with
    | some pub => ({ kp with PublicKey := pub }, warning)
    | none =>
      ({ kp with PublicKey := lit "WARNING: " ++ lit "fileName" ++ lit ".pub wasn't found" },
        warning + publicKeyNotFound)
  let (kp, warning) :=
    match os.ReadFile fs (fileName ++ lit ".pvt") with
    | some pvt => ({ kp with PrivateKey := pvt }, warning)
    | none =>
      ({ kp with PrivateKey := lit "WARNING: " ++ lit "fileName" ++ lit ".pvt wasn't found" },
        warning + privateKeyNotfound)
  (kp, warning)

/-- The file system is a state from paths to bytes: a write that succeeded is
read back, and a write, failed or not, leaves every other path as it was. -/
structure PathToBytes {FS : Type} (os : FileOps FS) : Prop where
  /-- A file that was written without error holds the written bytes. -/
  read_written : ∀ (fs fs1 : FS) (p : GoString) (d : List Byte) (perm : Nat),
    os.WriteFile fs p d perm = (fs1, none) → os.ReadFile fs1 p = some d
  /-- Writing one path does not change what another path reads as. -/
  frame : ∀ (fs fs1 : FS) (p q : GoString) (d : List Byte) (perm : Nat) (e : Option GoString),
    os.WriteFile fs p d perm = (fs1, e) → q ≠ p → os.ReadFile fs1 q = os.ReadFile fs q

/-- A file of the small file system: its bytes and its permission bits. -/
structure MemFile where
  /-- The content. -/
  data : List Byte
  /-- The permission bits. -/
  perm : Nat

/-- A small file system: the files by path. Reading gives the content of the
file at the path; writing an existing file without the owner-write bit fails
with "permission denied" and changes nothing, writing any other path stores
the bytes (a new file gets the given permission bits). -/
def memOps : FileOps (GoString → Option MemFile) where
  ReadFile := fun fs p =>
    match fs p with
    | some f => some f.data
    | none => none
  WriteFile := fun fs p d perm =>
    match fs p with
    | some f =>
      if f.perm / 128 % 2 = 1 then
        (fun q => if q = p then some ⟨d, f.perm⟩ else fs q, none)
      else (fs, some (lit "open " ++ p ++ lit ": permission denied"))
    | none => (fun q => if q = p then some ⟨d, perm⟩ else fs q, none)

/-- The empty small file system. -/
def noFiles : GoString → Option MemFile := fun _ => none

/-- One edit of the lines of a message: a whole line in which "-" occurs is
inserted or deleted. -/
inductive LineEdit : List GoString → List GoString → Prop where
  | insert (pre post : List GoString) (line : GoString) (h : matchDash line = true) :
    LineEdit (pre ++ post) (pre ++ line :: post)
  | delete (pre post : List GoString) (line : GoString) (h : matchDash line = true) :
    LineEdit (pre ++ line :: post) (pre ++ post)

/-- The message `m2` is obtained from `m1` by inserting or deleting whole
lines in which "-" occurs, any number of times. -/
def CommentEdits (m1 m2 : GoString) : Prop :=
  Relation.ReflTransGen LineEdit (splitLines m1) (splitLines m2)

/-- A small file system in which the private-key artifact of the base path
"k" exists and is read-only, as after the `chmod 0444` of the test. -/
def readOnlyPvt : GoString → Option MemFile :=
  fun q => if q = lit "k.pvt" then some ⟨lit "OLD", 0o444⟩ else none

/-- A small file system in which the public-key artifact of the base path
"k" exists and is read-only. -/
def readOnlyPub : GoString → Option MemFile :=
  fun q => if q = lit "k.pub" then some ⟨lit "OLD", 0o444⟩ else none

/-! ## Lemmas: the loop of lineWrapString -/

theorem lit_nl : lit "\n" = [nl] := by decide

theorem runeToString_ascii (c : Byte) (h : c.val < 128) : runeToString c.val = [c] := by
  have h1 : (Fin.ofNat c.val : Byte) = c := by
    apply Fin.ext
    simp only [Fin.ofNat, Fin.val_mk]
    omega
  simp [runeToString, h, h1]

theorem lineWrapLoop_ascii (t : GoString) (ht : ∀ c ∈ t, c.val < 128) :
    ∀ (i : Nat) (rtn : GoString),
      lineWrapLoop 40 (rangeFrom i 0 t) rtn = .ok (rtn ++ wrapBody i t) := by
  induction t with
  | nil => intro i rtn; simp [rangeFrom, lineWrapLoop, wrapBody]
  | cons c t ih =>
    intro i rtn
    have hc : c.val < 128 := ht c (List.mem_cons_self _ _)
    have ht2 : ∀ x ∈ t, x.val < 128 := fun x hx => ht x (List.mem_cons_of_mem _ hx)
    have hd : DecodeRuneInString (c :: t) = (c.val, 1) := by simp [DecodeRuneInString, hc]
    have hm : (Int.tmod (i : Int) 40 = 0) = (i % 40 = 0) := by
      have h : Int.tmod (i : Int) 40 = ((i % 40 : Nat) : Int) := (Int.ofNat_tmod i 40).symm
      rw [h]
      exact propext Int.natCast_eq_zero
    simp only [rangeFrom, hd, lineWrapLoop, runeToString_ascii c hc, lit_nl, hm]
    by_cases hi : 0 < i
    · by_cases h40 : i % 40 = 0
      · simp [hi, hm, h40, wrapBody, ih ht2]
      · simp [hi, hm, h40, wrapBody, ih ht2]
    · simp [hi, wrapBody, ih ht2]

theorem wrapBody_append (xs ys : GoString) :
    ∀ i : Nat, wrapBody i (xs ++ ys) = wrapBody i xs ++ wrapBody (i + xs.length) ys := by
  induction xs with
  | nil => intro i; simp [wrapBody]
  | cons x xs ih =>
    intro i
    have e : i + 1 + xs.length = i + (xs.length + 1) := by omega
    by_cases h : 0 < i ∧ i % 40 = 0
    · simp [wrapBody, h, ih, e]
    · simp [wrapBody, h, ih, e]

theorem wrapBody_plain (xs : GoString) :
    ∀ i : Nat, (∀ j, i ≤ j → j < i + xs.length → ¬(0 < j ∧ j % 40 = 0)) →
      wrapBody i xs = xs := by
  induction xs with
  | nil => intro i _; simp [wrapBody]
  | cons x xs ih =>
    intro i h
    have h0 : ¬(0 < i ∧ i % 40 = 0) := h i (Nat.le_refl _) (by simp)
    have h1 : wrapBody (i + 1) xs = xs := by
      apply ih
      intro j hj hj2
      apply h j (by omega)
      simp only [List.length_cons]
      omega
    simp [wrapBody, h0, h1]

theorem wrapBody_period (xs : GoString) :
    ∀ i : Nat, 0 < i → wrapBody (i + 40) xs = wrapBody i xs := by
  induction xs with
  | nil => intro i _; simp [wrapBody]
  | cons x xs ih =>
    intro i hi
    have e : i + 40 + 1 = (i + 1) + 40 := by omega
    have h1 : wrapBody (i + 40 + 1) xs = wrapBody (i + 1) xs := by
      rw [e]; exact ih (i + 1) (by omega)
    have hc : (0 < i + 40 ∧ (i + 40) % 40 = 0) ↔ (0 < i ∧ i % 40 = 0) := by omega
    simp only [wrapBody, hc, h1]

theorem wrapBody_forty (y : Byte) (ys : GoString) :
    wrapBody 40 (y :: ys) = nl :: wrapBody 0 (y :: ys) := by
  have h := wrapBody_period ys 1 (by omega)
  simp only [wrapBody, Nat.zero_add] at h ⊢
  simp [h]

/-- The text cut into lines of 40 bytes: what the loop of `lineWrapString`
builds from offset 0 is these pieces joined by line feeds. -/
theorem wrapBody_pieces (n : Nat) :
    ∀ t : GoString, t.length ≤ n →
      ∃ pieces : List GoString,
        pieces.flatten = t ∧ (t = [] → pieces = []) ∧ (t ≠ [] → pieces ≠ []) ∧
        (∀ p ∈ pieces.dropLast, p.length = 40) ∧
        (∀ p ∈ pieces.getLast?, 1 ≤ p.length ∧ p.length ≤ 40) ∧
        wrapBody 0 t = [nl].intercalate pieces := by
  induction n with
  | zero =>
    intro t ht
    have : t = [] := List.length_eq_zero.mp (by omega)
    subst this
    exact ⟨[], by simp [wrapBody, List.intercalate]⟩
  | succ n ih =>
    intro t ht
    by_cases h0 : t = []
    · subst h0
      exact ⟨[], by simp [wrapBody, List.intercalate]⟩
    by_cases h40 : t.length ≤ 40
    · have hpos : 1 ≤ t.length := by
        cases t with
        | nil => exact absurd rfl h0
        | cons a l => simp
      refine ⟨[t], by simp, by simp [h0], by simp, by simp, ?_, ?_⟩
      · intro p hp
        simp at hp
        subst hp
        exact ⟨hpos, h40⟩
      · rw [wrapBody_plain t 0 (by intro j _ hj; omega)]
        simp [List.intercalate]
    · have hsplit : t = t.take 40 ++ t.drop 40 := (List.take_append_drop 40 t).symm
      have hlen : (t.take 40).length = 40 := by simp; omega
      have hdl : (t.drop 40).length ≤ n := by simp; omega
      have hdne : t.drop 40 ≠ [] := by
        intro h
        have := congrArg List.length h
        simp at this
        omega
      obtain ⟨ps, hj, _, hne, hdrop, hlast, hbody⟩ := ih (t.drop 40) hdl
      have hps : ps ≠ [] := hne hdne
      obtain ⟨q, qs, rfl⟩ := List.exists_cons_of_ne_nil hps
      obtain ⟨y, ys, hy⟩ := List.exists_cons_of_ne_nil hdne
      refine ⟨t.take 40 :: q :: qs, ?_, by simp [h0], by simp, ?_, ?_, ?_⟩
      · rw [List.flatten_cons, hj]; exact hsplit.symm
      · intro p hp
        rw [List.dropLast_cons₂] at hp
        rcases List.mem_cons.mp hp with h | h
        · rw [h]; exact hlen
        · exact hdrop p h
      · intro p hp
        rw [List.getLast?_cons_cons] at hp
        exact hlast p hp
      · have e1 : wrapBody 0 t = wrapBody 0 (t.take 40) ++ wrapBody 40 (t.drop 40) := by
          have := wrapBody_append (t.take 40) (t.drop 40) 0
          rw [← hsplit, hlen] at this
          simpa using this
        rw [e1, wrapBody_plain (t.take 40) 0 (by intro j _ hj; omega), hy, wrapBody_forty,
          ← hy, hbody]
        simp [List.intercalate, List.intersperse]

/-! ## Lemmas: splitting into lines and dropping the comment lines -/

theorem splitLines_ne_nil (s : GoString) : splitLines s ≠ [] := by
  cases s with
  | nil => simp [splitLines]
  | cons c cs =>
    simp only [splitLines]
    split
    · simp
    · split <;> simp

theorem splitLines_append (s r : GoString) :
    splitLines (s ++ nl :: r) = splitLines s ++ splitLines r := by
  induction s with
  | nil => simp [splitLines]
  | cons c cs ih =>
    obtain ⟨l, ls, hl⟩ := List.exists_cons_of_ne_nil (splitLines_ne_nil cs)
    by_cases hc : c = nl
    · simp [splitLines, hc, ih]
    · simp [splitLines, hc, ih, hl]

theorem splitLines_of_no_nl (s : GoString) (h : nl ∉ s) : splitLines s = [s] := by
  induction s with
  | nil => simp [splitLines]
  | cons c cs ih =>
    have hc : ¬c = nl := fun e => h (by simp [e])
    have hcs : nl ∉ cs := fun e => h (List.mem_cons_of_mem _ e)
    simp [splitLines, hc, ih hcs]

theorem splitLines_intercalate (p : GoString) (ps : List GoString) :
    (∀ q ∈ p :: ps, nl ∉ q) → splitLines ([nl].intercalate (p :: ps)) = p :: ps := by
  induction ps generalizing p with
  | nil =>
    intro h
    simpa [List.intercalate] using splitLines_of_no_nl p (h p (by simp))
  | cons q qs ih =>
    intro h
    have e : [nl].intercalate (p :: q :: qs) = p ++ nl :: [nl].intercalate (q :: qs) := by
      simp [List.intercalate]
    have hq : ∀ x ∈ q :: qs, nl ∉ x := fun x hx => h x (List.mem_cons_of_mem _ hx)
    rw [e, splitLines_append, splitLines_of_no_nl p (h p (by simp)), ih q hq]
    rfl

theorem commentLoop_eq (ls : List GoString) :
    ∀ acc : GoString,
      commentLoop ls acc = acc ++ (ls.filter (fun l => !matchDash l)).flatten := by
  induction ls with
  | nil => intro acc; simp [commentLoop]
  | cons l ls ih =>
    intro acc
    by_cases h : matchDash l = true
    · simp [commentLoop, h, ih]
    · simp [commentLoop, h, ih]

theorem matchDash_iff (l : GoString) : matchDash l = true ↔ dash ∈ l := by
  simp [matchDash]

theorem lit_begin : lit "-----BEGIN ENCODED MESSAGE-----\n" = beginLine ++ [nl] := by decide

theorem lit_end : lit "\n-----END ENCODED MESSAGE-----\n" = nl :: (endLine ++ [nl]) := by decide

/-- The lines of a wrapped message: the opening delimiter, the pieces (one
empty line when there is none), the closing delimiter, and the empty string
after the last line feed. -/
theorem splitLines_wrapped (pieces : List GoString) (h : ∀ q ∈ pieces, nl ∉ q) :
    splitLines (lit "-----BEGIN ENCODED MESSAGE-----\n" ++ [nl].intercalate pieces ++
        lit "\n-----END ENCODED MESSAGE-----\n") =
      beginLine :: ((if pieces = [] then [[]] else pieces) ++ [endLine, []]) := by
  have hb : nl ∉ beginLine := by decide
  have he : nl ∉ endLine := by decide
  have e : lit "-----BEGIN ENCODED MESSAGE-----\n" ++ [nl].intercalate pieces ++
      lit "\n-----END ENCODED MESSAGE-----\n" =
      beginLine ++ nl :: ([nl].intercalate pieces ++ nl :: (endLine ++ nl :: [])) := by
    rw [lit_begin, lit_end]; simp
  rw [e, splitLines_append, splitLines_append, splitLines_append, splitLines_of_no_nl _ hb,
    splitLines_of_no_nl _ he]
  cases pieces with
  | nil => simp [List.intercalate, splitLines]
  | cons p ps => rw [splitLines_intercalate p ps h]; simp [splitLines]

theorem base64_char (c : Byte) (h : c ∈ encodeStd ∨ c = padChar) :
    c.val < 128 ∧ c ≠ nl ∧ c ≠ cr ∧ c ≠ dash := by
  have h1 : ∀ x ∈ encodeStd, x.val < 128 ∧ x ≠ nl ∧ x ≠ cr ∧ x ≠ dash := by decide
  rcases h with h | h
  · exact h1 c h
  · subst h; decide

theorem lineWrapString_ascii (t : GoString) (ht : ∀ c ∈ t, c.val < 128) :
    lineWrapString t 40 true =
      .ok (lit "-----BEGIN ENCODED MESSAGE-----\n" ++ wrapBody 0 t ++
        lit "\n-----END ENCODED MESSAGE-----\n") := by
  simp [lineWrapString, rangeString, lineWrapLoop_ascii t ht]

theorem mem_of_mem_piece {pieces : List GoString} {t : GoString} (hj : pieces.flatten = t)
    {q : GoString} (hq : q ∈ pieces) {c : Byte} (hc : c ∈ q) : c ∈ t := by
  rw [← hj]
  exact List.mem_flatten.mpr ⟨q, hq, hc⟩

theorem filter_delimiters (ls : List GoString) (h : ∀ l ∈ ls, dash ∉ l) :
    ls.filter (fun l => decide (l ≠ beginLine ∧ l ≠ endLine)) = ls := by
  apply List.filter_eq_self.mpr
  intro l hl
  have hb : dash ∈ beginLine := by decide
  have he : dash ∈ endLine := by decide
  have h1 : l ≠ beginLine := fun e => h l hl (e ▸ hb)
  have h2 : l ≠ endLine := fun e => h l hl (e ▸ he)
  simp [h1, h2]

theorem filter_comments (ls : List GoString) (h : ∀ l ∈ ls, dash ∉ l) :
    ls.filter (fun l => !matchDash l) = ls := by
  apply List.filter_eq_self.mpr
  intro l hl
  have : ¬matchDash l = true := fun e => h l hl ((matchDash_iff l).mp e)
  simpa using this

/-- The lines between the delimiters carry no "-" and concatenate to the text. -/
theorem middle_lines (pieces : List GoString) (t : GoString) (hj : pieces.flatten = t)
    (hd : dash ∉ t) :
    (∀ l ∈ (if pieces = [] then [[]] else pieces), dash ∉ l) ∧
      (if pieces = [] then [[]] else pieces).flatten = t := by
  by_cases hp : pieces = []
  · subst hp
    simp at hj
    subst hj
    simp
  · simp only [hp, if_false]
    exact ⟨fun l hl hc => hd (mem_of_mem_piece hj hl hc), hj⟩

/-! ## Lemmas: base64 -/

theorem encChar_facts :
    ∀ v : Fin 64, decChar (encChar v.val) = some v.val ∧ encChar v.val ≠ padChar ∧
      encChar v.val ∈ encodeStd := by
  decide

theorem decChar_encChar (v : Nat) (h : v < 64) : decChar (encChar v) = some v :=
  (encChar_facts ⟨v, h⟩).1

theorem encChar_ne_pad (v : Nat) (h : v < 64) : encChar v ≠ padChar :=
  (encChar_facts ⟨v, h⟩).2.1

theorem encChar_mem (v : Nat) (h : v < 64) : encChar v ∈ encodeStd :=
  (encChar_facts ⟨v, h⟩).2.2

theorem byte_ofNat (x : Byte) (n : Nat) (h : n = x.val) : (Fin.ofNat n : Byte) = x := by
  apply Fin.ext
  simp only [Fin.ofNat, Fin.val_mk]
  omega

theorem decodeQuanta_EncodeToString (b : List Byte) :
    decodeQuanta (EncodeToString b) = some b := by
  induction b using EncodeToString.induct with
  | case1 => simp [EncodeToString, decodeQuanta]
  | case2 x =>
    have hx := x.isLt
    simp only [EncodeToString, decodeQuanta, decChar_encChar (x.val / 4) (by omega),
      decChar_encChar (x.val % 4 * 16) (by omega),
      byte_ofNat x (x.val / 4 * 4 + x.val % 4 * 16 / 16) (by omega)]
    simp
  | case3 x y =>
    have hx := x.isLt
    have hy := y.isLt
    simp only [EncodeToString, decodeQuanta, decChar_encChar (x.val / 4) (by omega),
      decChar_encChar (x.val % 4 * 16 + y.val / 16) (by omega),
      decChar_encChar (y.val % 16 * 4) (by omega),
      byte_ofNat x (x.val / 4 * 4 + (x.val % 4 * 16 + y.val / 16) / 16) (by omega),
      byte_ofNat y ((x.val % 4 * 16 + y.val / 16) % 16 * 16 + y.val % 16 * 4 / 4) (by omega)]
    simp [encChar_ne_pad (y.val % 16 * 4) (by omega)]
  | case4 x y z rest ih =>
    have hx := x.isLt
    have hy := y.isLt
    have hz := z.isLt
    simp only [EncodeToString, decodeQuanta, decChar_encChar (x.val / 4) (by omega),
      decChar_encChar (x.val % 4 * 16 + y.val / 16) (by omega),
      decChar_encChar (y.val % 16 * 4 + z.val / 64) (by omega),
      decChar_encChar (z.val % 64) (by omega), ih,
      byte_ofNat x (x.val / 4 * 4 + (x.val % 4 * 16 + y.val / 16) / 16) (by omega),
      byte_ofNat y ((x.val % 4 * 16 + y.val / 16) % 16 * 16 +
        (y.val % 16 * 4 + z.val / 64) / 4) (by omega),
      byte_ofNat z ((y.val % 16 * 4 + z.val / 64) % 4 * 64 + z.val % 64) (by omega)]
    simp [encChar_ne_pad (y.val % 16 * 4 + z.val / 64) (by omega),
      encChar_ne_pad (z.val % 64) (by omega)]

theorem EncodeToString_isBase64Text (b : List Byte) : isBase64Text (EncodeToString b) := by
  unfold isBase64Text
  induction b using EncodeToString.induct with
  | case1 => simp [EncodeToString]
  | case2 x =>
    have hx := x.isLt
    intro c hc
    simp only [EncodeToString, List.mem_cons, List.mem_singleton, List.not_mem_nil, or_false] at hc
    rcases hc with h | h | h | h
    · rw [h]; exact Or.inl (encChar_mem _ (by omega))
    · rw [h]; exact Or.inl (encChar_mem _ (by omega))
    · exact Or.inr h
    · exact Or.inr h
  | case3 x y =>
    have hx := x.isLt
    have hy := y.isLt
    intro c hc
    simp only [EncodeToString, List.mem_cons, List.mem_singleton, List.not_mem_nil, or_false] at hc
    rcases hc with h | h | h | h
    · rw [h]; exact Or.inl (encChar_mem _ (by omega))
    · rw [h]; exact Or.inl (encChar_mem _ (by omega))
    · rw [h]; exact Or.inl (encChar_mem _ (by omega))
    · exact Or.inr h
  | case4 x y z rest ih =>
    have hx := x.isLt
    have hy := y.isLt
    have hz := z.isLt
    intro c hc
    simp only [EncodeToString, List.mem_cons] at hc
    rcases hc with h | h | h | h | h
    · rw [h]; exact Or.inl (encChar_mem _ (by omega))
    · rw [h]; exact Or.inl (encChar_mem _ (by omega))
    · rw [h]; exact Or.inl (encChar_mem _ (by omega))
    · rw [h]; exact Or.inl (encChar_mem _ (by omega))
    · exact ih c h

theorem filter_base64Text (t : GoString) (ht : isBase64Text t) :
    t.filter (fun c => c ≠ nl ∧ c ≠ cr) = t := by
  apply List.filter_eq_self.mpr
  intro c hc
  have := base64_char c (ht c hc)
  simp [this.2.1, this.2.2.1]

theorem DecodeString_of_base64Text (t : GoString) (ht : isBase64Text t) :
    DecodeString t = decodeQuanta t := by
  unfold DecodeString
  rw [filter_base64Text t ht]

theorem DecodeString_EncodeToString (b : List Byte) :
    DecodeString (EncodeToString b) = some b := by
  rw [DecodeString_of_base64Text _ (EncodeToString_isBase64Text b)]
  exact decodeQuanta_EncodeToString b

/-! ## Lemmas: wrapping and unwrapping a ciphertext -/

theorem lineWrapString_base64 (b : List Byte) :
    lineWrapString (EncodeToString b) 40 true = .ok (wrapped b) :=
  lineWrapString_ascii _ (fun c hc => (base64_char c (EncodeToString_isBase64Text b c hc)).1)

theorem wrapped_ne_nil (b : List Byte) : wrapped b ≠ [] := by
  unfold wrapped
  rw [lit_begin]
  simp

theorem unwrap_wrapped (b : List Byte) :
    DecodeString (commentLoop (splitLines (wrapped b)) []) = some b := by
  have h64 := EncodeToString_isBase64Text b
  have hnl : nl ∉ EncodeToString b := fun h => (base64_char nl (h64 nl h)).2.1 rfl
  have hdash : dash ∉ EncodeToString b := fun h => (base64_char dash (h64 dash h)).2.2.2 rfl
  obtain ⟨pieces, hj, _, _, _, _, hbody⟩ :=
    wrapBody_pieces (EncodeToString b).length (EncodeToString b) (Nat.le_refl _)
  have hpn : ∀ q ∈ pieces, nl ∉ q := fun q hq hc => hnl (mem_of_mem_piece hj hq hc)
  obtain ⟨hmid, hflat⟩ := middle_lines pieces _ hj hdash
  have hb : matchDash beginLine = true := by decide
  have he : matchDash endLine = true := by decide
  unfold wrapped
  rw [hbody, splitLines_wrapped pieces hpn, commentLoop_eq]
  simp only [List.nil_append, List.filter_cons, List.filter_append, hb, he, Bool.not_true,
    filter_comments _ hmid]
  simp [matchDash, hflat, DecodeString_EncodeToString]

/-! ## Lemmas: the small instance is correct -/

theorem takeWhile_stop {α : Type} (p : α → Bool) (xs : List α) (y : α) (ys : List α)
    (h : ∀ x ∈ xs, p x = true) (hy : p y = false) :
    (xs ++ y :: ys).takeWhile p = xs ∧ (xs ++ y :: ys).dropWhile p = y :: ys := by
  induction xs with
  | nil => simp [List.takeWhile, List.dropWhile, hy]
  | cons x xs ih =>
    have hx : p x = true := h x (List.mem_cons_self _ _)
    have := ih (fun z hz => h z (List.mem_cons_of_mem _ hz))
    simp [List.takeWhile, List.dropWhile, hx, this]

theorem isPrefixOf_append (l r : GoString) : l.isPrefixOf (l ++ r) = true := by
  rw [List.isPrefixOf_iff_prefix]
  exact List.prefix_append l r

theorem toyDecode_toyEncodeToMemory (typ : GoString) (der : List Byte) (ht : dash ∉ typ) :
    toyDecode (toyEncodeToMemory ⟨typ, [], der⟩) = some ⟨typ, [], der⟩ := by
  have hD : lit "-----\n" = dash :: lit "----\n" := by decide
  have hE : lit "-----END " = dash :: lit "----END " := by decide
  have hN : lit "\n" = [nl] := by decide
  have h64 := EncodeToString_isBase64Text der
  have s2 := takeWhile_stop (fun c => decide (c ≠ dash)) typ dash
    (lit "----\n" ++ (EncodeToString der ++ (lit "\n" ++ (lit "-----END " ++
      (typ ++ lit "-----\n")))))
    (by
      intro x hx
      have : x ≠ dash := fun e => ht (e ▸ hx)
      simpa using this)
    (by simp)
  have s4 := takeWhile_stop (fun c => decide (c ≠ dash)) (EncodeToString der ++ [nl]) dash
    (lit "----END " ++ (typ ++ lit "-----\n"))
    (by
      intro x hx
      rcases List.mem_append.mp hx with h | h
      · simpa using (base64_char x (h64 x h)).2.2.2
      · simp at h; subst h; decide)
    (by simp)
  have e2 : typ ++ (lit "-----\n" ++ (EncodeToString der ++ (lit "\n" ++ (lit "-----END " ++
      (typ ++ lit "-----\n"))))) =
      typ ++ dash :: (lit "----\n" ++ (EncodeToString der ++ (lit "\n" ++ (lit "-----END " ++
      (typ ++ lit "-----\n"))))) := by
    rw [hD]; rfl
  have e3 : dash :: (lit "----\n" ++ (EncodeToString der ++ (lit "\n" ++ (lit "-----END " ++
      (typ ++ lit "-----\n"))))) =
      lit "-----\n" ++ (EncodeToString der ++ (lit "\n" ++ (lit "-----END " ++
      (typ ++ lit "-----\n")))) := by
    rw [hD]; rfl
  have e4 : EncodeToString der ++ (lit "\n" ++ (lit "-----END " ++ (typ ++ lit "-----\n"))) =
      (EncodeToString der ++ [nl]) ++ dash :: (lit "----END " ++ (typ ++ lit "-----\n")) := by
    rw [hN, hE]; simp
  have e5 : dash :: (lit "----END " ++ (typ ++ lit "-----\n")) =
      lit "-----END " ++ (typ ++ lit "-----\n") := by
    rw [hE]; rfl
  have e6 : DecodeString (EncodeToString der ++ [nl]) = some der := by
    unfold DecodeString
    rw [List.filter_append, filter_base64Text _ h64]
    have : List.filter (fun c => decide (c ≠ nl ∧ c ≠ cr)) [nl] = [] := by decide
    rw [this, List.append_nil]
    exact decodeQuanta_EncodeToString der
  simp only [toyDecode, toyEncodeToMemory, isPrefixOf_append, List.drop_left, if_true]
  rw [e2, s2.1, s2.2, e3]
  simp only [isPrefixOf_append, List.drop_left, if_true]
  rw [e4, s4.1, s4.2, e5, e6]
  simp

theorem toy_correct : Correct toy where
  decode_nil := by decide
  pem_private := fun der =>
    toyDecode_toyEncodeToMemory (lit "RSA Private Key") der (by decide)
  pem_public := fun der =>
    toyDecode_toyEncodeToMemory (lit "RSA Public Key") der (by decide)
  pkcs1 := fun k => by simp [toy]
  pkix := fun k => ⟨[0x31, k], by simp [toy]⟩
  rsa := fun r1 r2 k m h => by
    refine ⟨k :: m.reverse, ?_, ?_⟩
    · have h2 : m.length + 11 ≤ 64 := h
      have h3 : m.length ≤ 53 := by omega
      simp [toy, h3]
    · simp [toy]

/-! ## Lemmas: running the program -/

section Running

variable {Priv Pub Rnd : Type} (E : Externals Priv Pub Rnd)

theorem run_EncryptMessage_blank (rand : Rnd) (a b : GoString) (h : a = [] ∨ b = []) :
    run (EncryptMessage E rand a b) = .ok (([], some .ErrBlankValues), []) := by
  simp [run, EncryptMessage, h, StateT.run, pure, StateT.pure, Except.pure]

theorem run_DecryptMessage_blank (rand : Rnd) (a b : GoString) (h : a = [] ∨ b = []) :
    run (DecryptMessage E rand a b) = .ok (([], some .ErrBlankValues), []) := by
  simp [run, DecryptMessage, h, StateT.run, pure, StateT.pure, Except.pure]

theorem run_EncryptMessage (rand : Rnd) (a b : GoString) (ha : a ≠ []) (hb : b ≠ []) :
    run (EncryptMessage E rand a b) =
      match E.Decode b with
      | none => .error .nilPointerDereference
      | some block =>
        match E.ParsePKIXPublicKey block.Bytes with
        | none => .ok (([], some .ErrEncryptMessageX509Parsing), [.Decode, .ParsePKIXPublicKey])
        | some .other => .error .interfaceConversion
        | some (.rsa pubKey) =>
          match lineWrapString (EncodeToString ((E.EncryptPKCS1v15 rand pubKey a).getD [])) 40
            true with
          | .error p => .error p
          | .ok w =>
            .ok ((w, none), [.Decode, .ParsePKIXPublicKey, .EncryptPKCS1v15, .EncodeToString]) := by
  cases hd : E.Decode b with
  | none =>
    simp [run, EncryptMessage, ha, hb, hd, StateT.run, bind, StateT.bind, Except.bind, call,
      modify, modifyGet, MonadStateOf.modifyGet, StateT.modifyGet, deref, panicWith, pure,
      Except.pure]
  | some block =>
    cases hp : E.ParsePKIXPublicKey block.Bytes with
    | none =>
      simp [run, EncryptMessage, ha, hb, hd, hp, StateT.run, bind, StateT.bind, Except.bind, call,
        modify, modifyGet, MonadStateOf.modifyGet, StateT.modifyGet, deref, panicWith, pure,
        Except.pure, StateT.pure]
    | some k =>
      cases k with
      | other =>
        simp [run, EncryptMessage, ha, hb, hd, hp, StateT.run, bind, StateT.bind, Except.bind,
          call, modify, modifyGet, MonadStateOf.modifyGet, StateT.modifyGet, deref, panicWith,
          pure, Except.pure, StateT.pure]
      | rsa pubKey =>
        cases hw : lineWrapString (EncodeToString ((E.EncryptPKCS1v15 rand pubKey a).getD [])) 40
            true with
        | error p =>
          simp [run, EncryptMessage, ha, hb, hd, hp, hw, StateT.run, bind, StateT.bind,
            Except.bind, call, modify, modifyGet, MonadStateOf.modifyGet, StateT.modifyGet, deref,
            panicWith, pure, Except.pure, StateT.pure, liftM, monadLift, MonadLift.monadLift,
            StateT.lift]
        | ok w =>
          simp [run, EncryptMessage, ha, hb, hd, hp, hw, StateT.run, bind, StateT.bind,
            Except.bind, call, modify, modifyGet, MonadStateOf.modifyGet, StateT.modifyGet, deref,
            panicWith, pure, Except.pure, StateT.pure, liftM, monadLift, MonadLift.monadLift,
            StateT.lift]

theorem run_DecryptMessage_from (log : List Call) (rand : Rnd) (a b : GoString) (ha : a ≠ [])
    (hb : b ≠ []) :
    StateT.run (DecryptMessage E rand a b) log =
      match DecodeString (commentLoop (splitLines a) []) with
      | none => .ok (([], some .ErrDecryptMessageDecodeStringFailed), log ++ [.DecodeString])
      | some cipherText =>
        match E.Decode b with
        | none => .ok (([], some .ErrDecryptMessagePemDecoding), log ++ [.DecodeString, .Decode])
        | some block =>
          match E.ParsePKCS1PrivateKey block.Bytes with
          | none =>
            .ok (([], some .ErrDecryptMessageX509Decoding),
              log ++ [.DecodeString, .Decode, .ParsePKCS1PrivateKey])
          | some pvtKey =>
            match E.DecryptPKCS1v15 rand pvtKey cipherText with
            | none =>
              .ok (([], some .ErrDecryptionFailed),
                log ++ [.DecodeString, .Decode, .ParsePKCS1PrivateKey, .DecryptPKCS1v15])
            | some plainText =>
              .ok ((plainText, none),
                log ++ [.DecodeString, .Decode, .ParsePKCS1PrivateKey, .DecryptPKCS1v15]) := by
  cases h1 : DecodeString (commentLoop (splitLines a) []) with
  | none =>
    simp [DecryptMessage, ha, hb, StateT.run, bind, StateT.bind, Except.bind, call, modify,
      modifyGet, MonadStateOf.modifyGet, StateT.modifyGet, pure, Except.pure, StateT.pure, h1]
  | some cipherText =>
    cases h2 : E.Decode b with
    | none =>
      simp [DecryptMessage, ha, hb, StateT.run, bind, StateT.bind, Except.bind, call, modify,
      modifyGet, MonadStateOf.modifyGet, StateT.modifyGet, pure, Except.pure, StateT.pure, h1, h2]
    | some block =>
      cases h3 : E.ParsePKCS1PrivateKey block.Bytes with
      | none =>
        simp [DecryptMessage, ha, hb, StateT.run, bind, StateT.bind, Except.bind, call, modify,
      modifyGet, MonadStateOf.modifyGet, StateT.modifyGet, pure, Except.pure, StateT.pure, h1, h2, h3]
      | some pvtKey =>
        cases h4 : E.DecryptPKCS1v15 rand pvtKey cipherText with
        | none =>
          simp [DecryptMessage, ha, hb, StateT.run, bind, StateT.bind, Except.bind, call, modify,
      modifyGet, MonadStateOf.modifyGet, StateT.modifyGet, pure, Except.pure, StateT.pure, h1, h2, h3, h4]
        | some plainText =>
          simp [DecryptMessage, ha, hb, StateT.run, bind, StateT.bind, Except.bind, call, modify,
      modifyGet, MonadStateOf.modifyGet, StateT.modifyGet, pure, Except.pure, StateT.pure, h1, h2, h3, h4]

theorem run_DecryptMessage (rand : Rnd) (a b : GoString) (ha : a ≠ []) (hb : b ≠ []) :
    run (DecryptMessage E rand a b) =
      match DecodeString (commentLoop (splitLines a) []) with
      | none => .ok (([], some .ErrDecryptMessageDecodeStringFailed), [.DecodeString])
      | some cipherText =>
        match E.Decode b with
        | none => .ok (([], some .ErrDecryptMessagePemDecoding), [.DecodeString, .Decode])
        | some block =>
          match E.ParsePKCS1PrivateKey block.Bytes with
          | none =>
            .ok (([], some .ErrDecryptMessageX509Decoding),
              [.DecodeString, .Decode, .ParsePKCS1PrivateKey])
          | some pvtKey =>
            match E.DecryptPKCS1v15 rand pvtKey cipherText with
            | none =>
              .ok (([], some .ErrDecryptionFailed),
                [.DecodeString, .Decode, .ParsePKCS1PrivateKey, .DecryptPKCS1v15])
            | some plainText =>
              .ok ((plainText, none),
                [.DecodeString, .Decode, .ParsePKCS1PrivateKey, .DecryptPKCS1v15]) := by
  have h := run_DecryptMessage_from E [] rand a b ha hb
  simpa [run] using h

theorem run_NewRSAKeyPair_bad (rand : Rnd) (n : Int) (h : badKeyLength n = true) :
    run (NewRSAKeyPair E rand n) = .ok ((⟨[], []⟩, some .ErrInvalidKeyLen), []) := by
  simp [run, NewRSAKeyPair, h, StateT.run, pure, StateT.pure, Except.pure]

theorem run_NewRSAKeyPair (rand : Rnd) (n : Int) (h : badKeyLength n = false) :
    run (NewRSAKeyPair E rand n) =
      match E.GenerateKey rand n with
      | none => .error .nilPointerDereference
      | some key =>
        .ok ((⟨E.EncodeToMemory ⟨lit "RSA Public Key", [],
                (E.MarshalPKIXPublicKey (E.PublicKey key)).getD []⟩,
              E.EncodeToMemory ⟨lit "RSA Private Key", [], E.MarshalPKCS1PrivateKey key⟩⟩, none),
          [.GenerateKey, .MarshalPKCS1PrivateKey, .EncodeToMemory, .MarshalPKIXPublicKey,
            .EncodeToMemory]) := by
  cases hg : E.GenerateKey rand n with
  | none =>
    simp [run, NewRSAKeyPair, h, hg, StateT.run, bind, StateT.bind, Except.bind, call, modify,
      modifyGet, MonadStateOf.modifyGet, StateT.modifyGet, pure, Except.pure, StateT.pure, deref,
      panicWith]
  | some key =>
    simp [run, NewRSAKeyPair, h, hg, StateT.run, bind, StateT.bind, Except.bind, call, modify,
      modifyGet, MonadStateOf.modifyGet, StateT.modifyGet, pure, Except.pure, StateT.pure, deref,
      panicWith]

theorem badKeyLength_eq (n : Int) : badKeyLength n = true ↔ n ∉ ValidKeyLengths := by
  simp only [badKeyLength, ValidKeyLengths, badKeyLengthLoop]
  simp only [List.mem_cons, List.mem_singleton, List.not_mem_nil, or_false]
  constructor
  · intro h
    repeat' split at h
    all_goals first
      | exact absurd h (by decide)
      | omega
  · intro h
    repeat' split
    all_goals first
      | rfl
      | omega

theorem badKeyLength_valid (n : Int) (h : n ∈ ValidKeyLengths) : badKeyLength n = false := by
  cases hb : badKeyLength n with
  | false => rfl
  | true => exact absurd h ((badKeyLength_eq n).mp hb)

/-- What a call of `NewRSAKeyPair` that returned no error has done: the
primitive generated a key, and the pair holds its two PEM encodings. -/
theorem NewRSAKeyPair_generated (rand : Rnd) (n : Int) (pair : RsaKeyPairType)
    (log : List Call) (h : run (NewRSAKeyPair E rand n) = .ok ((pair, none), log)) :
    ∃ key : Priv, E.GenerateKey rand n = some key ∧
      pair.PublicKey = E.EncodeToMemory ⟨lit "RSA Public Key", [],
        (E.MarshalPKIXPublicKey (E.PublicKey key)).getD []⟩ ∧
      pair.PrivateKey =
        E.EncodeToMemory ⟨lit "RSA Private Key", [], E.MarshalPKCS1PrivateKey key⟩ := by
  cases hb : badKeyLength n with
  | true =>
    rw [run_NewRSAKeyPair_bad E rand n hb] at h
    simp at h
  | false =>
    rw [run_NewRSAKeyPair E rand n hb] at h
    cases hg : E.GenerateKey rand n with
    | none =>
      rw [hg] at h
      simp at h
    | some key =>
      rw [hg] at h
      simp only [Except.ok.injEq, Prod.mk.injEq] at h
      refine ⟨key, rfl, ?_, ?_⟩
      · rw [← h.1.1]
      · rw [← h.1.1]

/-- The keys of a generated pair parse back, under correct libraries. -/
theorem generated_pair_parses (hE : Correct E) (key : Priv) :
    E.Decode (E.EncodeToMemory ⟨lit "RSA Private Key", [], E.MarshalPKCS1PrivateKey key⟩) =
        some ⟨lit "RSA Private Key", [], E.MarshalPKCS1PrivateKey key⟩ ∧
      E.ParsePKCS1PrivateKey (E.MarshalPKCS1PrivateKey key) = some key ∧
      ∃ der : List Byte,
        E.Decode (E.EncodeToMemory ⟨lit "RSA Public Key", [],
          (E.MarshalPKIXPublicKey (E.PublicKey key)).getD []⟩) =
          some ⟨lit "RSA Public Key", [], der⟩ ∧
        E.ParsePKIXPublicKey der = some (.rsa (E.PublicKey key)) := by
  obtain ⟨der, hm, hp⟩ := hE.pkix (E.PublicKey key)
  refine ⟨hE.pem_private _, hE.pkcs1 key, der, ?_, hp⟩
  rw [hm]
  exact hE.pem_public der

/-- Encrypting under the public key of a generated pair and decrypting the
returned text with its private key gives back a non-empty plaintext that fits
the modulus. -/
theorem roundTrip_generated (hE : Correct E) (r1 r2 : Rnd) (key : Priv) (plainText : GoString)
    (hne : plainText ≠ []) (hlen : plainText.length + 11 ≤ E.Size (E.PublicKey key)) :
    run (roundTrip E r1 r2 plainText
      ⟨E.EncodeToMemory ⟨lit "RSA Public Key", [],
          (E.MarshalPKIXPublicKey (E.PublicKey key)).getD []⟩,
        E.EncodeToMemory ⟨lit "RSA Private Key", [], E.MarshalPKCS1PrivateKey key⟩⟩) =
      .ok ((plainText, none),
        [.Decode, .ParsePKIXPublicKey, .EncryptPKCS1v15, .EncodeToString, .DecodeString,
          .Decode, .ParsePKCS1PrivateKey, .DecryptPKCS1v15]) := by
  obtain ⟨hpv, hpk, der, hpub, hparse⟩ := generated_pair_parses E hE key
  obtain ⟨c, henc, hdec⟩ := hE.rsa r1 r2 key plainText hlen
  have hpubne : E.EncodeToMemory ⟨lit "RSA Public Key", [],
      (E.MarshalPKIXPublicKey (E.PublicKey key)).getD []⟩ ≠ [] := by
    intro h0
    rw [h0, hE.decode_nil] at hpub
    simp at hpub
  have hpvtne : E.EncodeToMemory ⟨lit "RSA Private Key", [], E.MarshalPKCS1PrivateKey key⟩ ≠
      [] := by
    intro h0
    rw [h0, hE.decode_nil] at hpv
    simp at hpv
  have h1 := run_EncryptMessage E r1 plainText _ hne hpubne
  rw [hpub] at h1
  simp only [hparse, henc, Option.getD_some, lineWrapString_base64] at h1
  have h2 := run_DecryptMessage_from E
    [.Decode, .ParsePKIXPublicKey, .EncryptPKCS1v15, .EncodeToString] r2 (wrapped c) _
    (wrapped_ne_nil c) hpvtne
  rw [unwrap_wrapped, hpv] at h2
  simp only [hpk, hdec] at h2
  unfold run at h1
  unfold run roundTrip
  rw [StateT.run_bind, h1]
  simpa [bind, Except.bind] using h2

theorem modulusBytes_generated (hE : Correct E) (key : Priv) :
    modulusBytes E (E.EncodeToMemory ⟨lit "RSA Public Key", [],
      (E.MarshalPKIXPublicKey (E.PublicKey key)).getD []⟩) =
      some (E.Size (E.PublicKey key)) := by
  obtain ⟨_, _, der, hpub, hparse⟩ := generated_pair_parses E hE key
  simp [modulusBytes, hpub, hparse]

end Running

/-! ## Lemmas: the round trip, the comment lines -/

theorem run_roundTrip_encrypted {Priv Pub Rnd : Type} (E : Externals Priv Pub Rnd) (r1 r2 : Rnd)
    (m pub pvt : GoString) (block : Block) (pubKey : Pub) (hm : m ≠ []) (hk : pub ≠ [])
    (hd : E.Decode pub = some block)
    (hp : E.ParsePKIXPublicKey block.Bytes = some (.rsa pubKey)) :
    run (roundTrip E r1 r2 m ⟨pub, pvt⟩) =
      StateT.run (DecryptMessage E r2 (wrapped ((E.EncryptPKCS1v15 r1 pubKey m).getD [])) pvt)
        [.Decode, .ParsePKIXPublicKey, .EncryptPKCS1v15, .EncodeToString] := by
  have h1 := run_EncryptMessage E r1 m pub hm hk
  rw [hd] at h1
  simp only [hp, lineWrapString_base64] at h1
  unfold run at h1
  unfold run roundTrip
  rw [StateT.run_bind, h1]
  simp [bind, Except.bind]

theorem commentLoop_nil_of_all_comments (ls : List GoString)
    (h : ∀ l ∈ ls, matchDash l = true) : commentLoop ls [] = [] := by
  rw [commentLoop_eq]
  have : ls.filter (fun l => !matchDash l) = [] := by
    apply List.filter_eq_nil_iff.mpr
    intro l hl
    simp [h l hl]
  simp [this]

theorem LineEdit_filter {l1 l2 : List GoString} (h : LineEdit l1 l2) :
    l1.filter (fun l => !matchDash l) = l2.filter (fun l => !matchDash l) := by
  cases h with
  | insert pre post line hl => simp [List.filter_append, List.filter_cons, hl]
  | delete pre post line hl => simp [List.filter_append, List.filter_cons, hl]

theorem LineEdits_filter {l1 l2 : List GoString} (h : Relation.ReflTransGen LineEdit l1 l2) :
    l1.filter (fun l => !matchDash l) = l2.filter (fun l => !matchDash l) := by
  induction h with
  | refl => rfl
  | tail _ hstep ih => rw [ih, LineEdit_filter hstep]

theorem CommentEdits_commentLoop {m1 m2 : GoString} (h : CommentEdits m1 m2) :
    commentLoop (splitLines m1) [] = commentLoop (splitLines m2) [] := by
  rw [commentLoop_eq, commentLoop_eq, LineEdits_filter h]

theorem toyDecode_no_dash (s : GoString) (h : dash ∉ s) : toyDecode s = none := by
  have hB : lit "-----BEGIN " = dash :: lit "----BEGIN " := by decide
  have hpre : (lit "-----BEGIN ").isPrefixOf s = false := by
    rw [hB]
    cases s with
    | nil => rfl
    | cons c cs =>
      have hc : ¬dash = c := fun e => h (by simp [e])
      simp only [List.isPrefixOf, Bool.and_eq_false_imp, beq_iff_eq]
      intro e
      exact absurd e hc
  unfold toyDecode
  rw [hpre]
  rfl

/-! ## Lemmas: the key store -/

theorem pvt_ne_pub (p : GoString) : p ++ lit ".pvt" ≠ p ++ lit ".pub" := by
  intro h
  have h2 := List.append_cancel_left h
  exact absurd h2 (by decide)

theorem save_ok_writes {FS : Type} (os : FileOps FS) (fs fs2 : FS) (kp : RsaKeyPairType)
    (p : GoString) (h : SaveRSAKeyPair os fs (some kp) p = .ok (fs2, none)) :
    ∃ fs1 : FS, os.WriteFile fs (p ++ lit ".pvt") kp.PrivateKey 0o700 = (fs1, none) ∧
      os.WriteFile fs1 (p ++ lit ".pub") kp.PublicKey 0o700 = (fs2, none) := by
  unfold SaveRSAKeyPair at h
  simp only at h
  cases h1 : os.WriteFile fs (p ++ lit ".pvt") kp.PrivateKey 0o700 with
  | mk fs1 e1 =>
    rw [h1] at h
    cases e1 with
    | some e => simp at h
    | none =>
      simp only at h
      cases h2 : os.WriteFile fs1 (p ++ lit ".pub") kp.PublicKey 0o700 with
      | mk fs2b e2 =>
        rw [h2] at h
        cases e2 with
        | some e => simp at h
        | none =>
          simp only [Except.ok.injEq, Prod.mk.injEq, and_true] at h
          exact ⟨fs1, rfl, h ▸ h2⟩

theorem memOps_pathToBytes : PathToBytes memOps where
  read_written := by
    intro fs fs1 p d perm h
    simp only [memOps] at h ⊢
    cases hf : fs p with
    | none =>
      rw [hf] at h
      simp only [Prod.mk.injEq, and_true] at h
      subst h
      simp
    | some f =>
      rw [hf] at h
      by_cases hw : f.perm / 128 % 2 = 1
      · simp only [hw, if_true, Prod.mk.injEq, and_true] at h
        subst h
        simp
      · simp [hw] at h
  frame := by
    intro fs fs1 p q d perm e h hq
    simp only [memOps] at h ⊢
    cases hf : fs p with
    | none =>
      rw [hf] at h
      simp only [Prod.mk.injEq] at h
      rw [← h.1]
      simp [hq]
    | some f =>
      rw [hf] at h
      by_cases hw : f.perm / 128 % 2 = 1
      · simp only [hw, if_true, Prod.mk.injEq] at h
        rw [← h.1]
        simp [hq]
      · simp only [hw, if_false, Prod.mk.injEq] at h
        rw [← h.1]

/-! ## The claims -/

/-- C1 (as amended): with correct external libraries, for every key pair that
`NewRSAKeyPair` returned without error and every non-empty plaintext whose
byte length is at most the modulus byte length of the pair minus 11,
`DecryptMessage(EncryptMessage(plaintext, pair.PublicKey), pair.PrivateKey)`
returns exactly the plaintext with no error. -/
theorem round_trip {Priv Pub Rnd : Type} (E : Externals Priv Pub Rnd) (hE : Correct E)
    (r0 r1 r2 : Rnd) (length : Int) (pair : RsaKeyPairType) (log : List Call)
    (hgen : run (NewRSAKeyPair E r0 length) = .ok ((pair, none), log))
    (plainText : GoString) (hne : plainText ≠ []) (n : Nat)
    (hmod : modulusBytes E pair.PublicKey = some n) (hlen : plainText.length + 11 ≤ n) :
    ∃ log2 : List Call, run (roundTrip E r1 r2 plainText pair) = .ok ((plainText, none), log2) := by
  obtain ⟨key, _, hpub, hpvt⟩ := NewRSAKeyPair_generated E r0 length pair log hgen
  have hn : n = E.Size (E.PublicKey key) := by
    rw [hpub, modulusBytes_generated E hE key] at hmod
    exact (Option.some.inj hmod).symm
  have hpair : pair = ⟨E.EncodeToMemory ⟨lit "RSA Public Key", [],
      (E.MarshalPKIXPublicKey (E.PublicKey key)).getD []⟩,
      E.EncodeToMemory ⟨lit "RSA Private Key", [], E.MarshalPKCS1PrivateKey key⟩⟩ := by
    cases pair
    simp only [RsaKeyPairType.mk.injEq]
    exact ⟨hpub, hpvt⟩
  rw [hpair]
  exact ⟨_, roundTrip_generated E hE r1 r2 key plainText hne (hn ▸ hlen)⟩

/-- Witness of C1 (as amended): the plaintext "hi" under a generated pair of
the small instance. -/
theorem round_trip_witness :
    Correct toy ∧
      run (NewRSAKeyPair toy 7 3072) =
        .ok ((⟨lit "-----BEGIN RSA Public Key-----\nMQc=\n-----END RSA Public Key-----\n",
          lit "-----BEGIN RSA Private Key-----\nMAc=\n-----END RSA Private Key-----\n"⟩, none),
          [.GenerateKey, .MarshalPKCS1PrivateKey, .EncodeToMemory, .MarshalPKIXPublicKey,
            .EncodeToMemory]) ∧
      lit "hi" ≠ [] ∧
      modulusBytes toy
        (lit "-----BEGIN RSA Public Key-----\nMQc=\n-----END RSA Public Key-----\n") = some 64 ∧
      (lit "hi").length + 11 ≤ 64 ∧
      ∃ log2 : List Call,
        run (roundTrip toy 1 2 (lit "hi")
          ⟨lit "-----BEGIN RSA Public Key-----\nMQc=\n-----END RSA Public Key-----\n",
          lit "-----BEGIN RSA Private Key-----\nMAc=\n-----END RSA Private Key-----\n"⟩) =
          .ok ((lit "hi", none), log2) :=
  ⟨toy_correct, by decide, by decide, by decide, by decide,
    round_trip toy toy_correct 7 1 2 3072
      ⟨lit "-----BEGIN RSA Public Key-----\nMQc=\n-----END RSA Public Key-----\n",
      lit "-----BEGIN RSA Private Key-----\nMAc=\n-----END RSA Private Key-----\n"⟩
      [.GenerateKey, .MarshalPKCS1PrivateKey, .EncodeToMemory, .MarshalPKIXPublicKey,
      .EncodeToMemory]
      (by decide) (lit "hi") (by decide) 64 (by decide) (by decide)⟩

/-- Counterexample to C1 as stated: the empty plaintext has at most (modulus
byte length - 11) bytes, yet `EncryptMessage` rejects it with `ErrBlankValues`
and `DecryptMessage` of the empty text it returned fails with `ErrBlankValues`
too, so the round trip does not end with no error. -/
theorem round_trip_empty_plaintext :
    ¬ (∀ (E : Externals Byte Byte Nat), Correct E →
      ∀ (r0 r1 r2 : Nat) (length : Int) (pair : RsaKeyPairType) (log : List Call),
        run (NewRSAKeyPair E r0 length) = .ok ((pair, none), log) →
        ∀ (plainText : GoString) (n : Nat), modulusBytes E pair.PublicKey = some n →
          plainText.length + 11 ≤ n →
          ∃ log2 : List Call,
            run (roundTrip E r1 r2 plainText pair) = .ok ((plainText, none), log2)) := by
  intro h
  obtain ⟨log2, h2⟩ := h toy toy_correct 7 1 2 3072
    ⟨lit "-----BEGIN RSA Public Key-----\nMQc=\n-----END RSA Public Key-----\n",
      lit "-----BEGIN RSA Private Key-----\nMAc=\n-----END RSA Private Key-----\n"⟩
    [.GenerateKey, .MarshalPKCS1PrivateKey, .EncodeToMemory, .MarshalPKIXPublicKey,
      .EncodeToMemory]
    (by decide) [] 64 (by decide) (by decide)
  have h3 : run (roundTrip toy 1 2 []
      ⟨lit "-----BEGIN RSA Public Key-----\nMQc=\n-----END RSA Public Key-----\n",
        lit "-----BEGIN RSA Private Key-----\nMAc=\n-----END RSA Private Key-----\n"⟩) =
      .ok (([], some .ErrBlankValues), []) := by decide
  rw [h3] at h2
  simp at h2

/-- C2: for every byte sequence `b`, the empty one included, `lineWrapString`
of the base64 of `b` with width 40 and headers returns a text, and the unwrap
stage of `DecryptMessage` on that text (split on line feeds, drop every line
in which "-" occurs, concatenate the rest, decode standard base64) succeeds
and gives back exactly `b`. -/
theorem unwrap_wrap (b : List Byte) :
    ∃ w : GoString, lineWrapString (EncodeToString b) 40 true = .ok w ∧
      DecodeString (commentLoop (splitLines w) []) = some b :=
  ⟨_, lineWrapString_base64 b, unwrap_wrapped b⟩

/-- C3: for every base64 text `t`, `lineWrapString(t, 40, true)` returns the
opening delimiter line, then `t` cut into consecutive pieces joined by line
feeds, every piece but the last of exactly 40 bytes and the last of 1 to 40
bytes (no piece when `t` is empty), then a line feed and the closing delimiter
line; splitting the result into lines, removing the two delimiter lines and
concatenating the rest gives back `t`. -/
theorem lineWrapString_format (t : GoString) (ht : isBase64Text t) :
    ∃ pieces : List GoString,
      pieces.flatten = t ∧ (t = [] → pieces = []) ∧
      (∀ p ∈ pieces.dropLast, p.length = 40) ∧
      (∀ p ∈ pieces.getLast?, 1 ≤ p.length ∧ p.length ≤ 40) ∧
      lineWrapString t 40 true =
        .ok (lit "-----BEGIN ENCODED MESSAGE-----\n" ++ [nl].intercalate pieces ++
          lit "\n-----END ENCODED MESSAGE-----\n") ∧
      ((splitLines (lit "-----BEGIN ENCODED MESSAGE-----\n" ++ [nl].intercalate pieces ++
          lit "\n-----END ENCODED MESSAGE-----\n")).filter
        (fun l => decide (l ≠ lit "-----BEGIN ENCODED MESSAGE-----" ∧
          l ≠ lit "-----END ENCODED MESSAGE-----"))).flatten = t := by
  have hascii : ∀ c ∈ t, c.val < 128 := fun c hc => (base64_char c (ht c hc)).1
  have hnl : nl ∉ t := fun h => (base64_char nl (ht nl h)).2.1 rfl
  have hdash : dash ∉ t := fun h => (base64_char dash (ht dash h)).2.2.2 rfl
  obtain ⟨pieces, hj, h0, _, hdrop, hlast, hbody⟩ := wrapBody_pieces t.length t (Nat.le_refl _)
  have hpn : ∀ q ∈ pieces, nl ∉ q := fun q hq hc => hnl (mem_of_mem_piece hj hq hc)
  obtain ⟨hmid, hflat⟩ := middle_lines pieces t hj hdash
  refine ⟨pieces, hj, h0, hdrop, hlast, ?_, ?_⟩
  · rw [lineWrapString_ascii t hascii, hbody]
  · have hf := filter_delimiters _ hmid
    have hb : dash ∈ beginLine := by decide
    have he : dash ∈ endLine := by decide
    rw [splitLines_wrapped pieces hpn]
    change ((beginLine :: ((if pieces = [] then [[]] else pieces) ++ [endLine, []])).filter
      (fun l => decide (l ≠ beginLine ∧ l ≠ endLine))).flatten = t
    simp only [List.filter_cons, List.filter_append, hf]
    simp [hflat]

/-- Witness of C3 at the base64 text "TWFu". -/
theorem lineWrapString_format_witness :
    isBase64Text (lit "TWFu") ∧
    ∃ pieces : List GoString,
      pieces.flatten = lit "TWFu" ∧ (lit "TWFu" = [] → pieces = []) ∧
      (∀ p ∈ pieces.dropLast, p.length = 40) ∧
      (∀ p ∈ pieces.getLast?, 1 ≤ p.length ∧ p.length ≤ 40) ∧
      lineWrapString (lit "TWFu") 40 true =
        .ok (lit "-----BEGIN ENCODED MESSAGE-----\n" ++ [nl].intercalate pieces ++
          lit "\n-----END ENCODED MESSAGE-----\n") ∧
      ((splitLines (lit "-----BEGIN ENCODED MESSAGE-----\n" ++ [nl].intercalate pieces ++
          lit "\n-----END ENCODED MESSAGE-----\n")).filter
        (fun l => decide (l ≠ lit "-----BEGIN ENCODED MESSAGE-----" ∧
          l ≠ lit "-----END ENCODED MESSAGE-----"))).flatten = lit "TWFu" :=
  ⟨by decide, lineWrapString_format (lit "TWFu") (by decide)⟩

/-- C4: for every integer length outside 512, 1024, 2048, 3072, 4096, 7680,
15360 (negative values and zero included), `NewRSAKeyPair(length)` returns
`ErrInvalidKeyLen` with a key pair whose two fields are empty, and the call log
is empty: neither the key-generation primitive nor any other is invoked. -/
theorem NewRSAKeyPair_invalid_length {Priv Pub Rnd : Type} (E : Externals Priv Pub Rnd)
    (rand : Rnd) (length : Int) (h : length ∉ ValidKeyLengths) :
    run (NewRSAKeyPair E rand length) = .ok ((⟨[], []⟩, some .ErrInvalidKeyLen), []) :=
  run_NewRSAKeyPair_bad E rand length ((badKeyLength_eq length).mpr h)

/-- Witness of C4 at the length -8 of the test. -/
theorem NewRSAKeyPair_invalid_length_witness :
    (-8 : Int) ∉ ValidKeyLengths ∧
      run (NewRSAKeyPair toy 7 (-8)) = .ok ((⟨[], []⟩, some .ErrInvalidKeyLen), []) :=
  ⟨by decide, NewRSAKeyPair_invalid_length toy 7 (-8) (by decide)⟩

/-- C5 (the code departs from the claim): at a length in 512, 1024, 2048,
3072, 4096, 7680, 15360 at which `rsa.GenerateKey` returns an error,
`NewRSAKeyPair(length)` returns neither a key pair nor an error: the error of
the primitive is discarded, `privateKey` is left nil, and
`x509.MarshalPKCS1PrivateKey` dereferences it, so the call panics. -/
theorem NewRSAKeyPair_failed_generation {Priv Pub Rnd : Type} (E : Externals Priv Pub Rnd)
    (rand : Rnd) (length : Int) (h : length ∈ ValidKeyLengths)
    (hgen : E.GenerateKey rand length = none) :
    run (NewRSAKeyPair E rand length) = .error .nilPointerDereference := by
  rw [run_NewRSAKeyPair E rand length (badKeyLength_valid length h), hgen]

/-- Witness of C5: the allowed length 512 with a key generation that fails. -/
theorem NewRSAKeyPair_failed_generation_witness :
    (512 : Int) ∈ ValidKeyLengths ∧ toy.GenerateKey 0 512 = none ∧
      run (NewRSAKeyPair toy 0 512) = .error .nilPointerDereference :=
  ⟨by decide, by decide, NewRSAKeyPair_failed_generation toy 0 512 (by decide) (by decide)⟩

/-- What `NewRSAKeyPair` does when the generation succeeds: for every length in
512, 1024, 2048, 3072, 4096, 7680, 15360 at which the key-generation primitive
returns a key, with correct external libraries, it returns no error and a key
pair of two non-empty strings: `PrivateKey` decodes to a PEM block of type
"RSA Private Key" whose payload parses as the generated private key, and
`PublicKey` decodes on its own to a PEM block of type "RSA Public Key" whose
payload parses as its RSA public key. -/
theorem NewRSAKeyPair_valid_length {Priv Pub Rnd : Type} (E : Externals Priv Pub Rnd)
    (hE : Correct E) (rand : Rnd) (length : Int) (h : length ∈ ValidKeyLengths) (key : Priv)
    (hgen : E.GenerateKey rand length = some key) :
    ∃ pair : RsaKeyPairType,
      run (NewRSAKeyPair E rand length) =
        .ok ((pair, none), [.GenerateKey, .MarshalPKCS1PrivateKey, .EncodeToMemory,
          .MarshalPKIXPublicKey, .EncodeToMemory]) ∧
      pair.PrivateKey ≠ [] ∧ pair.PublicKey ≠ [] ∧
      (∃ b : Block, E.Decode pair.PrivateKey = some b ∧ b.Typ = lit "RSA Private Key" ∧
        E.ParsePKCS1PrivateKey b.Bytes = some key) ∧
      (∃ b : Block, E.Decode pair.PublicKey = some b ∧ b.Typ = lit "RSA Public Key" ∧
        E.ParsePKIXPublicKey b.Bytes = some (.rsa (E.PublicKey key))) := by
  obtain ⟨hpv, hpk, der, hpub, hparse⟩ := generated_pair_parses E hE key
  refine ⟨⟨E.EncodeToMemory ⟨lit "RSA Public Key", [],
      (E.MarshalPKIXPublicKey (E.PublicKey key)).getD []⟩,
      E.EncodeToMemory ⟨lit "RSA Private Key", [], E.MarshalPKCS1PrivateKey key⟩⟩, ?_, ?_, ?_,
    ⟨⟨lit "RSA Private Key", [], E.MarshalPKCS1PrivateKey key⟩, hpv, rfl, hpk⟩,
    ⟨⟨lit "RSA Public Key", [], der⟩, hpub, rfl, hparse⟩⟩
  · rw [run_NewRSAKeyPair E rand length (badKeyLength_valid length h), hgen]
  · intro h0
    simp only at h0
    rw [h0, hE.decode_nil] at hpv
    simp at hpv
  · intro h0
    simp only at h0
    rw [h0, hE.decode_nil] at hpub
    simp at hpub

/-- The successful generation at the length 3072 of the tests, in the small
instance. -/
theorem NewRSAKeyPair_valid_length_witness :
    Correct toy ∧ (3072 : Int) ∈ ValidKeyLengths ∧ toy.GenerateKey 7 3072 = some 7 ∧
    ∃ pair : RsaKeyPairType,
      run (NewRSAKeyPair toy 7 3072) =
        .ok ((pair, none), [.GenerateKey, .MarshalPKCS1PrivateKey, .EncodeToMemory,
          .MarshalPKIXPublicKey, .EncodeToMemory]) ∧
      pair.PrivateKey ≠ [] ∧ pair.PublicKey ≠ [] ∧
      (∃ b : Block, toy.Decode pair.PrivateKey = some b ∧ b.Typ = lit "RSA Private Key" ∧
        toy.ParsePKCS1PrivateKey b.Bytes = some 7) ∧
      (∃ b : Block, toy.Decode pair.PublicKey = some b ∧ b.Typ = lit "RSA Public Key" ∧
        toy.ParsePKIXPublicKey b.Bytes = some (.rsa (toy.PublicKey 7))) :=
  ⟨toy_correct, by decide, by decide,
    NewRSAKeyPair_valid_length toy toy_correct 7 3072 (by decide) 7 (by decide)⟩

/-- C6: for all strings `a` and `b` of which one is empty, `EncryptMessage(a, b)`
and `DecryptMessage(a, b)` each return the empty string with `ErrBlankValues`,
and the call log is empty: no decoding, key parsing or primitive call has been
attempted. -/
theorem blank_values {Priv Pub Rnd : Type} (E : Externals Priv Pub Rnd) (rand : Rnd)
    (a b : GoString) (h : a = [] ∨ b = []) :
    run (EncryptMessage E rand a b) = .ok (([], some .ErrBlankValues), []) ∧
      run (DecryptMessage E rand a b) = .ok (([], some .ErrBlankValues), []) :=
  ⟨run_EncryptMessage_blank E rand a b h, run_DecryptMessage_blank E rand a b h⟩

/-- Witness of C6 at a non-empty message with an empty key. -/
theorem blank_values_witness :
    (lit "Test Message" = [] ∨ ([] : GoString) = []) ∧
      run (EncryptMessage toy 1 (lit "Test Message") []) =
        .ok (([], some .ErrBlankValues), []) ∧
      run (DecryptMessage toy 1 (lit "Test Message") []) =
        .ok (([], some .ErrBlankValues), []) :=
  ⟨Or.inr rfl, blank_values toy 1 (lit "Test Message") [] (Or.inr rfl)⟩

/-- C7 (the code departs from the claim): for a non-empty message and a
non-empty public-key string in which `pem.Decode` finds no block,
`EncryptMessage` does not return `ErrEncryptMessageConvertingKey`: `block.Bytes`
dereferences the nil block and the call panics. -/
theorem EncryptMessage_no_block {Priv Pub Rnd : Type} (E : Externals Priv Pub Rnd) (rand : Rnd)
    (message publicKey : GoString) (hm : message ≠ []) (hk : publicKey ≠ [])
    (hd : E.Decode publicKey = none) :
    run (EncryptMessage E rand message publicKey) = .error .nilPointerDereference := by
  rw [run_EncryptMessage E rand message publicKey hm hk, hd]

/-- Witness of C7: a key string without any PEM block. -/
theorem EncryptMessage_no_block_witness :
    lit "Test Message" ≠ [] ∧ lit "not a PEM block" ≠ [] ∧
      toy.Decode (lit "not a PEM block") = none ∧
      run (EncryptMessage toy 1 (lit "Test Message") (lit "not a PEM block")) =
        .error .nilPointerDereference :=
  ⟨by decide, by decide, by decide,
    EncryptMessage_no_block toy 1 (lit "Test Message") (lit "not a PEM block") (by decide)
      (by decide) (by decide)⟩

/-- C8 (the code departs from the claim): for a non-empty message and a
public-key PEM whose payload parses as a public key that is not an RSA key,
`EncryptMessage` does not return `ErrEncryptMessageX509Parsing`: the type
assertion to `*rsa.PublicKey` panics. -/
theorem EncryptMessage_not_rsa {Priv Pub Rnd : Type} (E : Externals Priv Pub Rnd) (rand : Rnd)
    (message publicKey : GoString) (block : Block) (hm : message ≠ []) (hk : publicKey ≠ [])
    (hd : E.Decode publicKey = some block)
    (hp : E.ParsePKIXPublicKey block.Bytes = some .other) :
    run (EncryptMessage E rand message publicKey) = .error .interfaceConversion := by
  rw [run_EncryptMessage E rand message publicKey hm hk, hd]
  simp only [hp]

/-- Witness of C8: a PEM block that holds a key of another algorithm. -/
theorem EncryptMessage_not_rsa_witness :
    lit "Test Message" ≠ [] ∧
      lit "-----BEGIN RSA Public Key-----\nMgc=\n-----END RSA Public Key-----\n" ≠ [] ∧
      toy.Decode (lit "-----BEGIN RSA Public Key-----\nMgc=\n-----END RSA Public Key-----\n") =
        some ⟨lit "RSA Public Key", [], [0x32, 7]⟩ ∧
      toy.ParsePKIXPublicKey [0x32, 7] = some .other ∧
      run (EncryptMessage toy 1 (lit "Test Message")
        (lit "-----BEGIN RSA Public Key-----\nMgc=\n-----END RSA Public Key-----\n")) =
        .error .interfaceConversion :=
  ⟨by decide, by decide, by decide, by decide,
    EncryptMessage_not_rsa toy 1 (lit "Test Message")
      (lit "-----BEGIN RSA Public Key-----\nMgc=\n-----END RSA Public Key-----\n")
      ⟨lit "RSA Public Key", [], [0x32, 7]⟩ (by decide) (by decide) (by decide) (by decide)⟩

/-- C9 (the code departs from the claim): for a parseable RSA public key and a
plaintext that `rsa.EncryptPKCS1v15` rejects, `EncryptMessage` returns no
error: the error of the primitive is discarded and the delimiters around an
empty body are returned as the encoded message. -/
theorem EncryptMessage_rejected {Priv Pub Rnd : Type} (E : Externals Priv Pub Rnd) (rand : Rnd)
    (message publicKey : GoString) (block : Block) (pubKey : Pub) (hm : message ≠ [])
    (hk : publicKey ≠ []) (hd : E.Decode publicKey = some block)
    (hp : E.ParsePKIXPublicKey block.Bytes = some (.rsa pubKey))
    (he : E.EncryptPKCS1v15 rand pubKey message = none) :
    run (EncryptMessage E rand message publicKey) =
      .ok ((lit "-----BEGIN ENCODED MESSAGE-----\n\n-----END ENCODED MESSAGE-----\n", none),
        [.Decode, .ParsePKIXPublicKey, .EncryptPKCS1v15, .EncodeToString]) := by
  have hw : lineWrapString (EncodeToString []) 40 true =
      .ok (lit "-----BEGIN ENCODED MESSAGE-----\n\n-----END ENCODED MESSAGE-----\n") := by
    decide
  rw [run_EncryptMessage E rand message publicKey hm hk, hd]
  simp only [hp, he, Option.getD_none, hw]

/-- Witness of C9: a message of 54 bytes under a key whose modulus has 64. -/
theorem EncryptMessage_rejected_witness :
    List.replicate 54 (65 : Byte) ≠ [] ∧
      lit "-----BEGIN RSA Public Key-----\nMQc=\n-----END RSA Public Key-----\n" ≠ [] ∧
      toy.Decode (lit "-----BEGIN RSA Public Key-----\nMQc=\n-----END RSA Public Key-----\n") =
        some ⟨lit "RSA Public Key", [], [0x31, 7]⟩ ∧
      toy.ParsePKIXPublicKey [0x31, 7] = some (.rsa 7) ∧
      toy.EncryptPKCS1v15 1 7 (List.replicate 54 (65 : Byte)) = none ∧
      run (EncryptMessage toy 1 (List.replicate 54 (65 : Byte))
        (lit "-----BEGIN RSA Public Key-----\nMQc=\n-----END RSA Public Key-----\n")) =
        .ok ((lit "-----BEGIN ENCODED MESSAGE-----\n\n-----END ENCODED MESSAGE-----\n", none),
          [.Decode, .ParsePKIXPublicKey, .EncryptPKCS1v15, .EncodeToString]) :=
  ⟨by decide, by decide, by decide, by decide, by decide,
    EncryptMessage_rejected toy 1 (List.replicate 54 (65 : Byte))
      (lit "-----BEGIN RSA Public Key-----\nMQc=\n-----END RSA Public Key-----\n")
      ⟨lit "RSA Public Key", [], [0x31, 7]⟩ 7 (by decide) (by decide) (by decide) (by decide)
      (by decide)⟩

/-- C10: for every non-empty message and every public-key string that holds a
PEM block whose payload fails X.509 public-key parsing, `EncryptMessage`
returns the empty string with `ErrEncryptMessageX509Parsing`; it does not
panic, and it stops after the two calls `pem.Decode` and
`x509.ParsePKIXPublicKey`. -/
theorem EncryptMessage_bad_payload {Priv Pub Rnd : Type} (E : Externals Priv Pub Rnd)
    (rand : Rnd) (message publicKey : GoString) (block : Block) (hm : message ≠ [])
    (hk : publicKey ≠ []) (hd : E.Decode publicKey = some block)
    (hp : E.ParsePKIXPublicKey block.Bytes = none) :
    run (EncryptMessage E rand message publicKey) =
      .ok (([], some .ErrEncryptMessageX509Parsing), [.Decode, .ParsePKIXPublicKey]) := by
  rw [run_EncryptMessage E rand message publicKey hm hk, hd]
  simp only [hp]

/-- Witness of C10: a PEM block whose body is cut short. -/
theorem EncryptMessage_bad_payload_witness :
    lit "Test Message" ≠ [] ∧
      lit "-----BEGIN RSA Public Key-----\nMQ==\n-----END RSA Public Key-----\n" ≠ [] ∧
      toy.Decode (lit "-----BEGIN RSA Public Key-----\nMQ==\n-----END RSA Public Key-----\n") =
        some ⟨lit "RSA Public Key", [], [0x31]⟩ ∧
      toy.ParsePKIXPublicKey [0x31] = none ∧
      run (EncryptMessage toy 1 (lit "Test Message")
        (lit "-----BEGIN RSA Public Key-----\nMQ==\n-----END RSA Public Key-----\n")) =
        .ok (([], some .ErrEncryptMessageX509Parsing), [.Decode, .ParsePKIXPublicKey]) :=
  ⟨by decide, by decide, by decide, by decide,
    EncryptMessage_bad_payload toy 1 (lit "Test Message")
      (lit "-----BEGIN RSA Public Key-----\nMQ==\n-----END RSA Public Key-----\n")
      ⟨lit "RSA Public Key", [], [0x31]⟩ (by decide) (by decide) (by decide) (by decide)⟩

/-- C11: for every non-empty message whose lines without "-" concatenate to a
string that is not valid standard base64, and every non-empty private-key
string, `DecryptMessage` returns `ErrDecryptMessageDecodeStringFailed`; the
only external call made is the base64 decoding, so the key has not been
examined. -/
theorem DecryptMessage_bad_base64 {Priv Pub Rnd : Type} (E : Externals Priv Pub Rnd)
    (rand : Rnd) (message privateKey : GoString) (hm : message ≠ []) (hk : privateKey ≠ [])
    (hb : DecodeString (commentLoop (splitLines message) []) = none) :
    run (DecryptMessage E rand message privateKey) =
      .ok (([], some .ErrDecryptMessageDecodeStringFailed), [.DecodeString]) := by
  rw [run_DecryptMessage E rand message privateKey hm hk, hb]

/-- Witness of C11: the message "Test Message" of the test, which is not
base64, with a well-formed private key. -/
theorem DecryptMessage_bad_base64_witness :
    lit "Test Message" ≠ [] ∧
      lit "-----BEGIN RSA Private Key-----\nMAc=\n-----END RSA Private Key-----\n" ≠ [] ∧
      DecodeString (commentLoop (splitLines (lit "Test Message")) []) = none ∧
      run (DecryptMessage toy 1 (lit "Test Message")
        (lit "-----BEGIN RSA Private Key-----\nMAc=\n-----END RSA Private Key-----\n")) =
        .ok (([], some .ErrDecryptMessageDecodeStringFailed), [.DecodeString]) :=
  ⟨by decide, by decide, by decide,
    DecryptMessage_bad_base64 toy 1 (lit "Test Message")
      (lit "-----BEGIN RSA Private Key-----\nMAc=\n-----END RSA Private Key-----\n")
      (by decide) (by decide) (by decide)⟩

/-- C12: whenever `DecryptMessage` reaches `rsa.DecryptPKCS1v15` (the message
unwraps to a ciphertext and the private key parses as a PKCS1 RSA key) and the
primitive reports a failure, it returns the empty string with the one value
`ErrDecryptionFailed`, whatever the cause; in particular, when a message is
encrypted under the public key of one pair and the primitive fails to decrypt
the ciphertext with the private key of another, the round trip ends with
`ErrDecryptionFailed`. -/
theorem DecryptMessage_primitive_failure {Priv Pub Rnd : Type} (E : Externals Priv Pub Rnd)
    (r1 r2 : Rnd) (message privateKey : GoString) (cipherText : List Byte) (block : Block)
    (pvtKey : Priv) (hm : message ≠ []) (hk : privateKey ≠ [])
    (hc : DecodeString (commentLoop (splitLines message) []) = some cipherText)
    (hd : E.Decode privateKey = some block)
    (hp : E.ParsePKCS1PrivateKey block.Bytes = some pvtKey)
    (hf : E.DecryptPKCS1v15 r2 pvtKey cipherText = none) :
    run (DecryptMessage E r2 message privateKey) =
        .ok (([], some .ErrDecryptionFailed),
          [.DecodeString, .Decode, .ParsePKCS1PrivateKey, .DecryptPKCS1v15]) ∧
      ∀ (plainText publicKeyA : GoString) (blockA : Block) (pubKeyA : Pub),
        plainText ≠ [] → publicKeyA ≠ [] → E.Decode publicKeyA = some blockA →
        E.ParsePKIXPublicKey blockA.Bytes = some (.rsa pubKeyA) →
        E.DecryptPKCS1v15 r2 pvtKey ((E.EncryptPKCS1v15 r1 pubKeyA plainText).getD []) = none →
        run (roundTrip E r1 r2 plainText ⟨publicKeyA, privateKey⟩) =
          .ok (([], some .ErrDecryptionFailed),
            [.Decode, .ParsePKIXPublicKey, .EncryptPKCS1v15, .EncodeToString, .DecodeString,
              .Decode, .ParsePKCS1PrivateKey, .DecryptPKCS1v15]) := by
  constructor
  · rw [run_DecryptMessage E r2 message privateKey hm hk, hc, hd]
    simp only [hp, hf]
  · intro plainText publicKeyA blockA pubKeyA hpl hpa hda hpa2 hfail
    rw [run_roundTrip_encrypted E r1 r2 plainText publicKeyA privateKey blockA pubKeyA hpl hpa
      hda hpa2,
      run_DecryptMessage_from E _ r2 _ privateKey (wrapped_ne_nil _) hk, unwrap_wrapped, hd]
    simp only [hp, hfail]
    rfl

/-- Witness of C12: a ciphertext made under key 7 and the private key 8, as
the message and as the round trip of the test `TestWrongKeyUsed`. -/
theorem DecryptMessage_primitive_failure_witness :
    lit "-----BEGIN ENCODED MESSAGE-----\nB2lo\n-----END ENCODED MESSAGE-----\n" ≠ [] ∧
      lit "-----BEGIN RSA Private Key-----\nMAg=\n-----END RSA Private Key-----\n" ≠ [] ∧
      toy.DecryptPKCS1v15 2 8 [7, 105, 104] = none ∧
      run (DecryptMessage toy 2
        (lit "-----BEGIN ENCODED MESSAGE-----\nB2lo\n-----END ENCODED MESSAGE-----\n")
        (lit "-----BEGIN RSA Private Key-----\nMAg=\n-----END RSA Private Key-----\n")) =
        .ok (([], some .ErrDecryptionFailed),
          [.DecodeString, .Decode, .ParsePKCS1PrivateKey, .DecryptPKCS1v15]) ∧
      run (roundTrip toy 1 2 (lit "hi")
        ⟨lit "-----BEGIN RSA Public Key-----\nMQc=\n-----END RSA Public Key-----\n",
          lit "-----BEGIN RSA Private Key-----\nMAg=\n-----END RSA Private Key-----\n"⟩) =
        .ok (([], some .ErrDecryptionFailed),
          [.Decode, .ParsePKIXPublicKey, .EncryptPKCS1v15, .EncodeToString, .DecodeString,
            .Decode, .ParsePKCS1PrivateKey, .DecryptPKCS1v15]) :=
  have h := DecryptMessage_primitive_failure toy 1 2
    (lit "-----BEGIN ENCODED MESSAGE-----\nB2lo\n-----END ENCODED MESSAGE-----\n")
    (lit "-----BEGIN RSA Private Key-----\nMAg=\n-----END RSA Private Key-----\n")
    [7, 105, 104] ⟨lit "RSA Private Key", [], [0x30, 8]⟩ 8
    (by decide) (by decide) (by decide) (by decide) (by decide) (by decide)
  ⟨by decide, by decide, by decide, h.1,
    h.2 (lit "hi") (lit "-----BEGIN RSA Public Key-----\nMQc=\n-----END RSA Public Key-----\n")
      ⟨lit "RSA Public Key", [], [0x31, 7]⟩ 7 (by decide) (by decide) (by decide) (by decide)
      (by decide)⟩

/-- C13 (as amended): for every non-empty message whose payload is valid
base64 and every non-empty private-key string, `DecryptMessage` returns
`ErrDecryptMessagePemDecoding` when `pem.Decode` finds no block in the key, and
`ErrDecryptMessageX509Decoding` when a block is found whose payload does not
parse as a PKCS1 RSA private key; in both cases the log of external calls
holds no call of `rsa.DecryptPKCS1v15`. -/
theorem DecryptMessage_unusable_key {Priv Pub Rnd : Type} (E : Externals Priv Pub Rnd)
    (rand : Rnd) (message privateKey : GoString) (cipherText : List Byte) (hm : message ≠ [])
    (hk : privateKey ≠ [])
    (hc : DecodeString (commentLoop (splitLines message) []) = some cipherText) :
    (E.Decode privateKey = none →
      run (DecryptMessage E rand message privateKey) =
          .ok (([], some .ErrDecryptMessagePemDecoding), [.DecodeString, .Decode]) ∧
        Call.DecryptPKCS1v15 ∉ [Call.DecodeString, Call.Decode]) ∧
    (∀ block : Block, E.Decode privateKey = some block →
      E.ParsePKCS1PrivateKey block.Bytes = none →
      run (DecryptMessage E rand message privateKey) =
          .ok (([], some .ErrDecryptMessageX509Decoding),
            [.DecodeString, .Decode, .ParsePKCS1PrivateKey]) ∧
        Call.DecryptPKCS1v15 ∉ [Call.DecodeString, Call.Decode, Call.ParsePKCS1PrivateKey]) := by
  constructor
  · intro hd
    refine ⟨?_, by decide⟩
    rw [run_DecryptMessage E rand message privateKey hm hk, hc, hd]
  · intro block hd hp
    refine ⟨?_, by decide⟩
    rw [run_DecryptMessage E rand message privateKey hm hk, hc, hd]
    simp only [hp]

/-- Witness of C13 (as amended): a private key without its BEGIN and END
lines, and one whose payload is not a private key. -/
theorem DecryptMessage_unusable_key_witness :
    (run (DecryptMessage toy 1
        (lit "-----BEGIN ENCODED MESSAGE-----\nB2lo\n-----END ENCODED MESSAGE-----\n")
        (lit "MAc=")) =
        .ok (([], some .ErrDecryptMessagePemDecoding), [.DecodeString, .Decode]) ∧
      Call.DecryptPKCS1v15 ∉ [Call.DecodeString, Call.Decode]) ∧
    (run (DecryptMessage toy 1
        (lit "-----BEGIN ENCODED MESSAGE-----\nB2lo\n-----END ENCODED MESSAGE-----\n")
        (lit "-----BEGIN RSA Private Key-----\nMQc=\n-----END RSA Private Key-----\n")) =
        .ok (([], some .ErrDecryptMessageX509Decoding),
          [.DecodeString, .Decode, .ParsePKCS1PrivateKey]) ∧
      Call.DecryptPKCS1v15 ∉ [Call.DecodeString, Call.Decode, Call.ParsePKCS1PrivateKey]) :=
  ⟨(DecryptMessage_unusable_key toy 1
      (lit "-----BEGIN ENCODED MESSAGE-----\nB2lo\n-----END ENCODED MESSAGE-----\n")
      (lit "MAc=") [7, 105, 104] (by decide) (by decide) (by decide)).1 (by decide),
    (DecryptMessage_unusable_key toy 1
      (lit "-----BEGIN ENCODED MESSAGE-----\nB2lo\n-----END ENCODED MESSAGE-----\n")
      (lit "-----BEGIN RSA Private Key-----\nMQc=\n-----END RSA Private Key-----\n")
      [7, 105, 104] (by decide) (by decide) (by decide)).2
      ⟨lit "RSA Private Key", [], [0x31, 7]⟩ (by decide) (by decide)⟩

/-- Counterexample to C13 as stated: the empty string is a key string in which
`pem.Decode` finds no block, yet for it `DecryptMessage` returns
`ErrBlankValues` at its first guard and not `ErrDecryptMessagePemDecoding`. -/
theorem DecryptMessage_empty_key :
    ¬ (∀ (E : Externals Byte Byte Nat) (rand : Nat) (message privateKey : GoString)
      (cipherText : List Byte), message ≠ [] →
      DecodeString (commentLoop (splitLines message) []) = some cipherText →
      E.Decode privateKey = none →
      run (DecryptMessage E rand message privateKey) =
        .ok (([], some .ErrDecryptMessagePemDecoding), [.DecodeString, .Decode])) := by
  intro h
  have h2 := h toy 1 (lit "B2lo") [] [7, 105, 104] (by decide) (by decide) (by decide)
  have h3 : run (DecryptMessage toy 1 (lit "B2lo") []) =
      .ok (([], some .ErrBlankValues), []) := by decide
  rw [h3] at h2
  simp at h2

/-- C14: for every base path and every file-system state, `LoadRsaKeys`
returns (it has no failing path) a warning equal to 1 if the ".pvt" artifact
cannot be read plus 2 if the ".pub" artifact cannot be read: 0 when both are
readable, 1 when only the public one is, 2 when only the private one is, 3
when neither is; the warning is always one of 0, 1, 2, 3. -/
theorem LoadRsaKeys_warning {FS : Type} (os : FileOps FS) (fs : FS) (fileName : GoString) :
    (LoadRsaKeys os fs fileName).2 =
        (if (os.ReadFile fs (fileName ++ lit ".pvt")).isNone then 1 else 0) +
          (if (os.ReadFile fs (fileName ++ lit ".pub")).isNone then 2 else 0) ∧
      (LoadRsaKeys os fs fileName).2 ∈ [(0 : Int), 1, 2, 3] ∧
      ((os.ReadFile fs (fileName ++ lit ".pub")).isSome →
        (os.ReadFile fs (fileName ++ lit ".pvt")).isSome → (LoadRsaKeys os fs fileName).2 = 0) ∧
      ((os.ReadFile fs (fileName ++ lit ".pub")).isSome →
        (os.ReadFile fs (fileName ++ lit ".pvt")).isNone → (LoadRsaKeys os fs fileName).2 = 1) ∧
      ((os.ReadFile fs (fileName ++ lit ".pub")).isNone →
        (os.ReadFile fs (fileName ++ lit ".pvt")).isSome → (LoadRsaKeys os fs fileName).2 = 2) ∧
      ((os.ReadFile fs (fileName ++ lit ".pub")).isNone →
        (os.ReadFile fs (fileName ++ lit ".pvt")).isNone → (LoadRsaKeys os fs fileName).2 = 3) := by
  unfold LoadRsaKeys
  cases hpub : os.ReadFile fs (fileName ++ lit ".pub") <;>
    cases hpvt : os.ReadFile fs (fileName ++ lit ".pvt") <;> simp

/-- C15: over a file system that is a state from paths to bytes, for every key
pair `kp` and base path `p`, when `SaveRSAKeyPair(kp, p)` returns no error
(both writes succeeded), `LoadRsaKeys(p)` in the state it left returns the
warning 0 and a key pair whose `PublicKey` and `PrivateKey` are those of `kp`. -/
theorem save_then_load {FS : Type} (os : FileOps FS) (hos : PathToBytes os) (fs fs2 : FS)
    (kp : RsaKeyPairType) (p : GoString)
    (hsave : SaveRSAKeyPair os fs (some kp) p = .ok (fs2, none)) :
    LoadRsaKeys os fs2 p = (kp, 0) := by
  obtain ⟨fs1, h1, h2⟩ := save_ok_writes os fs fs2 kp p hsave
  have hpub : os.ReadFile fs2 (p ++ lit ".pub") = some kp.PublicKey :=
    hos.read_written fs1 fs2 _ _ _ h2
  have hpvt : os.ReadFile fs2 (p ++ lit ".pvt") = some kp.PrivateKey := by
    rw [hos.frame fs1 fs2 _ (p ++ lit ".pvt") _ _ _ h2 (pvt_ne_pub p)]
    exact hos.read_written fs fs1 _ _ _ h1
  simp [LoadRsaKeys, hpub, hpvt]

/-- Witness of C15: saving into the empty small file system. -/
theorem save_then_load_witness :
    PathToBytes memOps ∧
      ∃ fs2 : GoString → Option MemFile,
        SaveRSAKeyPair memOps noFiles (some ⟨lit "PUB", lit "PVT"⟩) (lit "./testCerts/testKey") =
          .ok (fs2, none) ∧
        LoadRsaKeys memOps fs2 (lit "./testCerts/testKey") = (⟨lit "PUB", lit "PVT"⟩, 0) :=
  ⟨memOps_pathToBytes, _, rfl,
    save_then_load memOps memOps_pathToBytes noFiles _ ⟨lit "PUB", lit "PVT"⟩
      (lit "./testCerts/testKey") rfl⟩

/-- C16: over a file system that is a state from paths to bytes,
`SaveRSAKeyPair` writes path+".pvt" first and path+".pub" second and returns
the error of the first write that fails. If the ".pvt" write fails, the state
is the one that write left and the ".pub" artifact reads as before; if the
".pvt" write succeeds and the ".pub" write fails, its error is returned and the
".pvt" artifact holds the new private key; no error is returned exactly when
both writes succeed. -/
theorem SaveRSAKeyPair_writes {FS : Type} (os : FileOps FS) (hos : PathToBytes os) (fs : FS)
    (kp : RsaKeyPairType) (p : GoString) :
    (∀ (fs1 : FS) (e : GoString),
      os.WriteFile fs (p ++ lit ".pvt") kp.PrivateKey 0o700 = (fs1, some e) →
      SaveRSAKeyPair os fs (some kp) p = .ok (fs1, some e) ∧
        os.ReadFile fs1 (p ++ lit ".pub") = os.ReadFile fs (p ++ lit ".pub")) ∧
    (∀ (fs1 fs2 : FS) (e : GoString),
      os.WriteFile fs (p ++ lit ".pvt") kp.PrivateKey 0o700 = (fs1, none) →
      os.WriteFile fs1 (p ++ lit ".pub") kp.PublicKey 0o700 = (fs2, some e) →
      SaveRSAKeyPair os fs (some kp) p = .ok (fs2, some e) ∧
        os.ReadFile fs2 (p ++ lit ".pvt") = some kp.PrivateKey) ∧
    (∀ fs2 : FS, SaveRSAKeyPair os fs (some kp) p = .ok (fs2, none) ↔
      ∃ fs1 : FS, os.WriteFile fs (p ++ lit ".pvt") kp.PrivateKey 0o700 = (fs1, none) ∧
        os.WriteFile fs1 (p ++ lit ".pub") kp.PublicKey 0o700 = (fs2, none)) := by
  refine ⟨?_, ?_, ?_⟩
  · intro fs1 e h1
    refine ⟨by simp [SaveRSAKeyPair, h1], ?_⟩
    exact hos.frame fs fs1 _ _ _ _ _ h1 (fun h => pvt_ne_pub p h.symm)
  · intro fs1 fs2 e h1 h2
    refine ⟨by simp [SaveRSAKeyPair, h1, h2], ?_⟩
    rw [hos.frame fs1 fs2 _ (p ++ lit ".pvt") _ _ _ h2 (pvt_ne_pub p)]
    exact hos.read_written fs fs1 _ _ _ h1
  · intro fs2
    constructor
    · exact save_ok_writes os fs fs2 kp p
    · rintro ⟨fs1, h1, h2⟩
      simp [SaveRSAKeyPair, h1, h2]

/-- Witness of C16: a read-only ".pvt" artifact, then a read-only ".pub"
artifact, in the small file system. -/
theorem SaveRSAKeyPair_writes_witness :
    PathToBytes memOps ∧
      (SaveRSAKeyPair memOps readOnlyPvt (some ⟨lit "PUB", lit "PVT"⟩) (lit "k") =
          .ok (readOnlyPvt, some (lit "open k.pvt: permission denied")) ∧
        memOps.ReadFile readOnlyPvt (lit "k" ++ lit ".pub") =
          memOps.ReadFile readOnlyPvt (lit "k" ++ lit ".pub")) ∧
      (SaveRSAKeyPair memOps readOnlyPub (some ⟨lit "PUB", lit "PVT"⟩) (lit "k") =
          .ok ((memOps.WriteFile readOnlyPub (lit "k.pvt") (lit "PVT") 0o700).1,
            some (lit "open k.pub: permission denied")) ∧
        memOps.ReadFile (memOps.WriteFile readOnlyPub (lit "k.pvt") (lit "PVT") 0o700).1
          (lit "k" ++ lit ".pvt") = some (lit "PVT")) :=
  ⟨memOps_pathToBytes,
    (SaveRSAKeyPair_writes memOps memOps_pathToBytes readOnlyPvt ⟨lit "PUB", lit "PVT"⟩
      (lit "k")).1 readOnlyPvt (lit "open k.pvt: permission denied") rfl,
    (SaveRSAKeyPair_writes memOps memOps_pathToBytes readOnlyPub ⟨lit "PUB", lit "PVT"⟩
      (lit "k")).2.1 (memOps.WriteFile readOnlyPub (lit "k.pvt") (lit "PVT") 0o700).1
      (memOps.WriteFile readOnlyPub (lit "k.pvt") (lit "PVT") 0o700).1
      (lit "open k.pub: permission denied") rfl rfl⟩

/-- C17 (the code departs from the claim): the warning string that
`LoadRsaKeys` stores for an unreadable artifact is built from the string
literal "fileName", whatever the base path: for the base path
"./testCerts/testKey" of the tests it holds neither
"./testCerts/testKey.pub" nor "./testCerts/testKey.pvt". -/
theorem LoadRsaKeys_warning_text {FS : Type} (os : FileOps FS) (fs : FS) (fileName : GoString) :
    (LoadRsaKeys os fs fileName).1.PublicKey =
        (match os.ReadFile fs (fileName ++ lit ".pub") with
          | some pub => pub
          | none => lit "WARNING: fileName.pub wasn't found") ∧
      (LoadRsaKeys os fs fileName).1.PrivateKey =
        (match os.ReadFile fs (fileName ++ lit ".pvt") with
          | some pvt => pvt
          | none => lit "WARNING: fileName.pvt wasn't found") ∧
      LoadRsaKeys memOps noFiles (lit "./testCerts/testKey") =
        (⟨lit "WARNING: fileName.pub wasn't found", lit "WARNING: fileName.pvt wasn't found"⟩,
          3) ∧
      ¬ (lit "./testCerts/testKey.pub" <:+: lit "WARNING: fileName.pub wasn't found") ∧
      ¬ (lit "./testCerts/testKey.pvt" <:+: lit "WARNING: fileName.pvt wasn't found") := by
  have e1 : lit "WARNING: " ++ lit "fileName" ++ lit ".pub wasn't found" =
      lit "WARNING: fileName.pub wasn't found" := by decide
  have e2 : lit "WARNING: " ++ lit "fileName" ++ lit ".pvt wasn't found" =
      lit "WARNING: fileName.pvt wasn't found" := by decide
  refine ⟨?_, ?_, by decide, by decide, by decide⟩
  · unfold LoadRsaKeys
    cases hpub : os.ReadFile fs (fileName ++ lit ".pub") <;>
      cases hpvt : os.ReadFile fs (fileName ++ lit ".pvt") <;> simp [e1]
  · unfold LoadRsaKeys
    cases hpub : os.ReadFile fs (fileName ++ lit ".pub") <;>
      cases hpvt : os.ReadFile fs (fileName ++ lit ".pvt") <;> simp [e2]

/-- C18 (the code departs from the claim): when `pem.Decode` finds no block in
a string without "-", the private-key placeholder that `LoadRsaKeys` stores,
passed to `DecryptMessage` with a decodable message, gives
`ErrDecryptMessagePemDecoding` before any call of the decryption primitive, but
the public-key placeholder passed to `EncryptMessage` with a non-empty message
gives no error result: `block.Bytes` dereferences the nil block and the call
panics. -/
theorem placeholders_misused {Priv Pub Rnd FS : Type} (E : Externals Priv Pub Rnd)
    (hD : ∀ s : GoString, dash ∉ s → E.Decode s = none) (os : FileOps FS) (fs : FS)
    (fileName : GoString) (rand : Rnd) (message : GoString) (cipherText : List Byte)
    (hpub : os.ReadFile fs (fileName ++ lit ".pub") = none)
    (hpvt : os.ReadFile fs (fileName ++ lit ".pvt") = none) (hm : message ≠ [])
    (hc : DecodeString (commentLoop (splitLines message) []) = some cipherText) :
    run (EncryptMessage E rand message (LoadRsaKeys os fs fileName).1.PublicKey) =
        .error .nilPointerDereference ∧
      run (DecryptMessage E rand message (LoadRsaKeys os fs fileName).1.PrivateKey) =
        .ok (([], some .ErrDecryptMessagePemDecoding), [.DecodeString, .Decode]) := by
  have e1 : (LoadRsaKeys os fs fileName).1.PublicKey =
      lit "WARNING: fileName.pub wasn't found" := by
    rw [show lit "WARNING: fileName.pub wasn't found" =
      lit "WARNING: " ++ lit "fileName" ++ lit ".pub wasn't found" by decide]
    simp [LoadRsaKeys, hpub, hpvt]
  have e2 : (LoadRsaKeys os fs fileName).1.PrivateKey =
      lit "WARNING: fileName.pvt wasn't found" := by
    rw [show lit "WARNING: fileName.pvt wasn't found" =
      lit "WARNING: " ++ lit "fileName" ++ lit ".pvt wasn't found" by decide]
    simp [LoadRsaKeys, hpub, hpvt]
  rw [e1, e2]
  constructor
  · rw [run_EncryptMessage E rand message _ hm (by decide), hD _ (by decide)]
  · rw [run_DecryptMessage E rand message _ hm (by decide), hc, hD _ (by decide)]

/-- Witness of C18: the placeholders of a load from the empty small file
system. -/
theorem placeholders_misused_witness :
    (∀ s : GoString, dash ∉ s → toy.Decode s = none) ∧
      run (EncryptMessage toy 1 (lit "B2lo")
        (LoadRsaKeys memOps noFiles (lit "./testCerts/testKey")).1.PublicKey) =
        .error .nilPointerDereference ∧
      run (DecryptMessage toy 1 (lit "B2lo")
        (LoadRsaKeys memOps noFiles (lit "./testCerts/testKey")).1.PrivateKey) =
        .ok (([], some .ErrDecryptMessagePemDecoding), [.DecodeString, .Decode]) :=
  ⟨toyDecode_no_dash,
    placeholders_misused toy toyDecode_no_dash memOps noFiles (lit "./testCerts/testKey") 1
      (lit "B2lo") [7, 105, 104] (by decide) (by decide) (by decide) (by decide)⟩

/-- C19 (as amended): for every non-empty message `m`, every non-empty private
key `k` and every non-empty message `m2` obtained from `m` by inserting or
deleting whole lines in which "-" occurs, `DecryptMessage(m2, k)` returns the
same result and the same error as `DecryptMessage(m, k)`, after the same
external calls. -/
theorem comment_lines_ignored {Priv Pub Rnd : Type} (E : Externals Priv Pub Rnd) (rand : Rnd)
    (m m2 k : GoString) (hm : m ≠ []) (hm2 : m2 ≠ []) (hk : k ≠ [])
    (h : CommentEdits m m2) :
    run (DecryptMessage E rand m2 k) = run (DecryptMessage E rand m k) := by
  rw [run_DecryptMessage E rand m k hm hk, run_DecryptMessage E rand m2 k hm2 hk,
    CommentEdits_commentLoop h]

/-- Witness of C19 (as amended): a comment line inserted before the payload. -/
theorem comment_lines_ignored_witness :
    lit "B2lo" ≠ [] ∧ lit "--- note\nB2lo" ≠ [] ∧
      lit "-----BEGIN RSA Private Key-----\nMAc=\n-----END RSA Private Key-----\n" ≠ [] ∧
      CommentEdits (lit "B2lo") (lit "--- note\nB2lo") ∧
      run (DecryptMessage toy 1 (lit "--- note\nB2lo")
        (lit "-----BEGIN RSA Private Key-----\nMAc=\n-----END RSA Private Key-----\n")) =
      run (DecryptMessage toy 1 (lit "B2lo")
        (lit "-----BEGIN RSA Private Key-----\nMAc=\n-----END RSA Private Key-----\n")) :=
  have hedit : CommentEdits (lit "B2lo") (lit "--- note\nB2lo") := by
    unfold CommentEdits
    rw [show splitLines (lit "B2lo") = [] ++ [lit "B2lo"] by decide,
      show splitLines (lit "--- note\nB2lo") = [] ++ lit "--- note" :: [lit "B2lo"] by decide]
    exact Relation.ReflTransGen.single (LineEdit.insert [] [lit "B2lo"] (lit "--- note")
      (by decide))
  ⟨by decide, by decide, by decide, hedit,
    comment_lines_ignored toy 1 (lit "B2lo") (lit "--- note\nB2lo")
      (lit "-----BEGIN RSA Private Key-----\nMAc=\n-----END RSA Private Key-----\n")
      (by decide) (by decide) (by decide) hedit⟩

/-- Counterexample to C19 as stated: deleting the only delimiter line of the
message "-----BEGIN ENCODED MESSAGE-----\n" leaves the empty message, which
`DecryptMessage` rejects with `ErrBlankValues`, while the message itself
passes the base64 stage with an empty payload and fails at decryption. -/
theorem comment_lines_deleted_to_empty :
    ¬ (∀ (E : Externals Byte Byte Nat) (rand : Nat) (m m2 k : GoString), m ≠ [] → k ≠ [] →
      CommentEdits m m2 →
      run (DecryptMessage E rand m2 k) = run (DecryptMessage E rand m k)) := by
  intro h
  have hedit : CommentEdits (lit "-----BEGIN ENCODED MESSAGE-----\n") [] := by
    unfold CommentEdits
    rw [show splitLines (lit "-----BEGIN ENCODED MESSAGE-----\n") =
        [] ++ lit "-----BEGIN ENCODED MESSAGE-----" :: [[]] by decide,
      show splitLines [] = [] ++ [([] : GoString)] by decide]
    exact Relation.ReflTransGen.single (LineEdit.delete [] [[]]
      (lit "-----BEGIN ENCODED MESSAGE-----") (by decide))
  have h2 := h toy 1 (lit "-----BEGIN ENCODED MESSAGE-----\n") []
    (lit "-----BEGIN RSA Private Key-----\nMAc=\n-----END RSA Private Key-----\n")
    (by decide) (by decide) hedit
  have h3 : run (DecryptMessage toy 1 []
      (lit "-----BEGIN RSA Private Key-----\nMAc=\n-----END RSA Private Key-----\n")) =
      .ok (([], some .ErrBlankValues), []) := by decide
  have h4 : run (DecryptMessage toy 1 (lit "-----BEGIN ENCODED MESSAGE-----\n")
      (lit "-----BEGIN RSA Private Key-----\nMAc=\n-----END RSA Private Key-----\n")) =
      .ok (([], some .ErrDecryptionFailed),
        [.DecodeString, .Decode, .ParsePKCS1PrivateKey, .DecryptPKCS1v15]) := by decide
  rw [h3, h4] at h2
  simp at h2

/-- C20: for every non-empty message of which every line holds "-" and every
non-empty private key, the filtered payload is the empty string and decodes to
the empty ciphertext, so `DecryptMessage` does not return
`ErrDecryptMessageDecodeStringFailed`: it goes on to the key stages and, with a
key that parses, to the decryption primitive on the empty ciphertext. -/
theorem all_comment_lines {Priv Pub Rnd : Type} (E : Externals Priv Pub Rnd) (rand : Rnd)
    (message privateKey : GoString) (hm : message ≠ []) (hk : privateKey ≠ [])
    (hall : ∀ line ∈ splitLines message, matchDash line = true) :
    commentLoop (splitLines message) [] = [] ∧ DecodeString [] = some [] ∧
      run (DecryptMessage E rand message privateKey) =
        (match E.Decode privateKey with
          | none => .ok (([], some .ErrDecryptMessagePemDecoding), [.DecodeString, .Decode])
          | some block =>
            match E.ParsePKCS1PrivateKey block.Bytes with
            | none =>
              .ok (([], some .ErrDecryptMessageX509Decoding),
                [.DecodeString, .Decode, .ParsePKCS1PrivateKey])
            | some pvtKey =>
              match E.DecryptPKCS1v15 rand pvtKey [] with
              | none =>
                .ok (([], some .ErrDecryptionFailed),
                  [.DecodeString, .Decode, .ParsePKCS1PrivateKey, .DecryptPKCS1v15])
              | some plainText =>
                .ok ((plainText, none),
                  [.DecodeString, .Decode, .ParsePKCS1PrivateKey, .DecryptPKCS1v15])) ∧
      ∀ (out : GoString) (log : List Call),
        run (DecryptMessage E rand message privateKey) ≠
          .ok ((out, some .ErrDecryptMessageDecodeStringFailed), log) := by
  have h0 := commentLoop_nil_of_all_comments _ hall
  have hd : DecodeString [] = some [] := by decide
  have hrun := run_DecryptMessage E rand message privateKey hm hk
  rw [h0, hd] at hrun
  simp only at hrun
  refine ⟨h0, hd, hrun, ?_⟩
  intro out log
  rw [hrun]
  repeat' split
  all_goals simp

/-- Witness of C20: a message that is the two delimiter lines only. -/
theorem all_comment_lines_witness :
    lit "-----BEGIN ENCODED MESSAGE-----\n-----END ENCODED MESSAGE-----" ≠ [] ∧
      (∀ line ∈ splitLines
        (lit "-----BEGIN ENCODED MESSAGE-----\n-----END ENCODED MESSAGE-----"),
        matchDash line = true) ∧
      run (DecryptMessage toy 1
        (lit "-----BEGIN ENCODED MESSAGE-----\n-----END ENCODED MESSAGE-----")
        (lit "-----BEGIN RSA Private Key-----\nMAc=\n-----END RSA Private Key-----\n")) =
        .ok (([], some .ErrDecryptionFailed),
          [.DecodeString, .Decode, .ParsePKCS1PrivateKey, .DecryptPKCS1v15]) :=
  ⟨by decide, by decide,
    ((all_comment_lines toy 1
      (lit "-----BEGIN ENCODED MESSAGE-----\n-----END ENCODED MESSAGE-----")
      (lit "-----BEGIN RSA Private Key-----\nMAc=\n-----END RSA Private Key-----\n")
      (by decide) (by decide) (by decide)).2.2.1).trans (by decide)⟩

/-! ## Evaluations of the model on concrete inputs -/

theorem eval_EncodeToString : EncodeToString (lit "Man") = lit "TWFu" ∧
    EncodeToString (lit "Ma") = lit "TWE=" ∧ EncodeToString (lit "M") = lit "TQ==" := by
  decide

theorem eval_DecodeString : DecodeString (lit "TW\nE=") = some (lit "Ma") ∧
    DecodeString (lit "TWE") = none ∧ DecodeString (lit "TQ==TWFu") = none ∧
    DecodeString (lit "Test Message") = none := by
  decide

theorem eval_rangeString : rangeString (lit "a♡b") = [(0, 97), (1, 0x2661), (4, 98)] ∧
    runeToString 0x2661 = lit "♡" := by
  decide

theorem eval_splitLines : splitLines (lit "a\n\nb\n") = [lit "a", [], lit "b", []] := by
  decide

theorem eval_lineWrapString :
    lineWrapString (lit "abcde") 2 true =
      .ok (lit "-----BEGIN ENCODED MESSAGE-----\nab\ncd\ne\n-----END ENCODED MESSAGE-----\n") ∧
    lineWrapString (lit "abcde") 0 false = .error .integerDivideByZero ∧
    lineWrapString (lit "a♡♡b") 2 false = .ok (lit "a♡\n♡b") := by
  decide

theorem eval_EncryptMessage :
    run (EncryptMessage toy 1 (lit "hi")
      (lit "-----BEGIN RSA Public Key-----\nMQc=\n-----END RSA Public Key-----\n")) =
    .ok ((lit "-----BEGIN ENCODED MESSAGE-----\nB2lo\n-----END ENCODED MESSAGE-----\n", none),
      [.Decode, .ParsePKIXPublicKey, .EncryptPKCS1v15, .EncodeToString]) := by
  decide

theorem eval_NewRSAKeyPair_failed_generation :
    run (NewRSAKeyPair toy 0 3072) = .error .nilPointerDereference := by
  decide

end SimpleRSA
